import Mathlib

/-!
WOO Image Library, `utilities.cpp`: a shallow embedding.

The scalar type `real_t` is declared in `utilities.hpp`; here it is the type parameter
`α`.  Structural results hold for every `α` carrying the arithmetic operations,
algebraic results are stated for exact arithmetic (`α` a linear ordered field), and
analytic results for `α = ℝ`; rounding of floating-point numbers is not modelled.

`std::vector<complex_t>` is a `List (complex_t α)`; a function that mutates reference
arguments returns the final value of each of them next to its `bool` result, and an
output vector is taken not to alias an input.  `unsigned int` is 32 bits wide:
arithmetic on it is taken modulo `2 ^ 32`.
-/

namespace wil

/-- Modelled from the spec: `complex_t`, declared in `utilities.hpp` (absent), is a
"pair of real scalars (real, imaginary parts)"; `re` is `real()` and `im` is `imag()`. -/
structure complex_t (α : Type) where
  re : α
  im : α
deriving DecidableEq, Repr

section scalar

variable {α : Type}

/-- Component-wise sum: `operator+` of `std::complex`. -/
def std_add [Add α] (a b : complex_t α) : complex_t α :=
  ⟨a.re + b.re, a.im + b.im⟩

/-- Component-wise difference: `operator-` of `std::complex`. -/
def std_sub [Sub α] (a b : complex_t α) : complex_t α :=
  ⟨a.re - b.re, a.im - b.im⟩

/-- The `complex_t operator*(complex_t c, complex_t s)` of lines 168-171. -/
def operator_mul [Add α] [Sub α] [Mul α] (c s : complex_t α) : complex_t α :=
  ⟨c.re * s.re - c.im * s.im, c.re * s.im + c.im * s.re⟩

/-- The `complex_t operator*(complex_t c, real_t s)` of lines 173-175. -/
def operator_mul_real [Mul α] (c : complex_t α) (s : α) : complex_t α :=
  ⟨c.re * s, c.im * s⟩

/-- The `complex_t operator*(real_t s, complex_t c)` of lines 177-179. -/
def operator_real_mul [Mul α] (s : α) (c : complex_t α) : complex_t α :=
  ⟨c.re * s, c.im * s⟩

/-- Quotient of two complex numbers, `operator/` of `std::complex`:
`(a + bi) / (c + di) = ((ac + bd) + (bc - ad) i) / (c² + d²)`. -/
def std_div [Add α] [Sub α] [Mul α] [Div α] (a b : complex_t α) : complex_t α :=
  ⟨(a.re * b.re + a.im * b.im) / (b.re * b.re + b.im * b.im),
   (a.im * b.re - a.re * b.im) / (b.re * b.re + b.im * b.im)⟩

instance [Add α] : Add (complex_t α) := ⟨std_add⟩

instance [Sub α] : Sub (complex_t α) := ⟨std_sub⟩

instance [Add α] [Sub α] [Mul α] : Mul (complex_t α) := ⟨operator_mul⟩

instance [Add α] [Sub α] [Mul α] [Div α] : Div (complex_t α) := ⟨std_div⟩

end scalar

section elementwise

variable {α : Type}

/-- The loop `for(; i1 != matrix1.end(); ++ i1, ++ i2) result.push_back(op (*i1) (*i2))`
shared by the out-of-place binary operations: `i1` and `i2` are the unread parts of
`matrix1` and `matrix2`.  The size check before the loop makes both run out together;
a second operand that ends first stops the loop. -/
def push_back_loop {β : Type} (op : β → β → β) : List β → List β → List β → List β
  | [], _, result => result
  | _ :: _, [], result => result
  | a :: i1, b :: i2, result => push_back_loop op i1 i2 (result ++ [op a b])

/-- The loop `for(; i1 != matrix1.end(); ++ i1, ++ i2) *i1 = op (*i1) (*i2)` shared by
the in-place binary operations; the value is the final content of `matrix1`. -/
def assign_loop {β : Type} (op : β → β → β) : List β → List β → List β
  | [], _ => []
  | a :: i1, [] => a :: i1
  | a :: i1, b :: i2 => op a b :: assign_loop op i1 i2

/-- Out-of-place sum `mat_add` (lines 193-210): the `bool` returned and the final `result`. -/
def mat_add [Add α] (x1_size y1_size z1_size : Nat) (matrix1 : List (complex_t α))
    (x2_size y2_size z2_size : Nat) (matrix2 : List (complex_t α))
    (result : List (complex_t α)) : Bool × List (complex_t α) :=
  if x1_size != x2_size || y1_size != y2_size || z1_size != z2_size
      || matrix1.length != matrix2.length then
    (false, result)
  else
    (true, push_back_loop (fun a b => a + b) matrix1 matrix2 [])

/-- In-place sum `mat_add_in` (lines 215-230): the `bool` returned and the final
`matrix1` and `matrix2`. -/
def mat_add_in [Add α] (x1_size y1_size z1_size : Nat) (matrix1 : List (complex_t α))
    (x2_size y2_size z2_size : Nat) (matrix2 : List (complex_t α)) :
    Bool × List (complex_t α) × List (complex_t α) :=
  if x1_size != x2_size || y1_size != y2_size || z1_size != z2_size
      || matrix1.length != matrix2.length then
    (false, matrix1, matrix2)
  else
    (true, assign_loop (fun a b => a + b) matrix1 matrix2, matrix2)

/-- Out-of-place element-wise product `mat_dot_prod` (lines 289-306). -/
def mat_dot_prod [Add α] [Sub α] [Mul α] (x1_size y1_size z1_size : Nat)
    (matrix1 : List (complex_t α)) (x2_size y2_size z2_size : Nat)
    (matrix2 : List (complex_t α)) (result : List (complex_t α)) :
    Bool × List (complex_t α) :=
  if x1_size != x2_size || y1_size != y2_size || z1_size != z2_size
      || matrix1.length != matrix2.length then
    (false, result)
  else
    (true, push_back_loop (fun a b => a * b) matrix1 matrix2 [])

/-- In-place element-wise product `mat_dot_prod_in` (lines 311-326). -/
def mat_dot_prod_in [Add α] [Sub α] [Mul α] (x1_size y1_size z1_size : Nat)
    (matrix1 : List (complex_t α)) (x2_size y2_size z2_size : Nat)
    (matrix2 : List (complex_t α)) : Bool × List (complex_t α) × List (complex_t α) :=
  if x1_size != x2_size || y1_size != y2_size || z1_size != z2_size
      || matrix1.length != matrix2.length then
    (false, matrix1, matrix2)
  else
    (true, assign_loop (fun a b => a * b) matrix1 matrix2, matrix2)

/-- Out-of-place element-wise quotient `mat_dot_div` (lines 332-349). -/
def mat_dot_div [Add α] [Sub α] [Mul α] [Div α] (nx1 ny1 nz1 : Nat)
    (matrix1 : List (complex_t α)) (nx2 ny2 nz2 : Nat)
    (matrix2 : List (complex_t α)) (result : List (complex_t α)) :
    Bool × List (complex_t α) :=
  if nx1 != nx2 || ny1 != ny2 || nz1 != nz2 || matrix1.length != matrix2.length then
    (false, result)
  else
    (true, push_back_loop (fun a b => a / b) matrix1 matrix2 [])

/-- In-place element-wise quotient `mat_dot_div_in` (lines 354-369). -/
def mat_dot_div_in [Add α] [Sub α] [Mul α] [Div α] (nx1 ny1 nz1 : Nat)
    (matrix1 : List (complex_t α)) (nx2 ny2 nz2 : Nat)
    (matrix2 : List (complex_t α)) : Bool × List (complex_t α) × List (complex_t α) :=
  if nx1 != nx2 || ny1 != ny2 || nz1 != nz2 || matrix1.length != matrix2.length then
    (false, matrix1, matrix2)
  else
    (true, assign_loop (fun a b => a / b) matrix1 matrix2, matrix2)

end elementwise

section real_buffers

variable {α : Type}

/-- Number of values of an `unsigned int`, on which arithmetic wraps around. -/
def uint_mod : Nat := 2 ^ 32

/-- Inner loop of `transpose` (lines 75-77),
`for(unsigned int x = 0; x < x_size; ++ x) transp[y_size * x + y] = matrix[x_size * y + x]`,
with `n` iterations left to run from `x` on.  A cell of `transp` is `none` until it has
been written; the loop itself yields `none` when it reads or writes outside a buffer. -/
def transpose_x_loop (x_size y_size : Nat) (matrix : List α) (y : Nat) :
    Nat → Nat → List (Option α) → Option (List (Option α))
  | 0, _, transp => some transp
  | n + 1, x, transp =>
    match matrix[(x_size * y + x) % uint_mod]? with
    | none => none
    | some v =>
      if (y_size * x + y) % uint_mod < transp.length then
        transpose_x_loop x_size y_size matrix y n (x + 1)
          (transp.set ((y_size * x + y) % uint_mod) (some v))
      else
        none

/-- Outer loop of `transpose` (lines 74-78), `for(unsigned int y = 0; y < y_size; ++ y)`,
with `n` iterations left to run from `y` on. -/
def transpose_y_loop (x_size y_size : Nat) (matrix : List α) :
    Nat → Nat → List (Option α) → Option (List (Option α))
  | 0, _, transp => some transp
  | n + 1, y, transp =>
    match transpose_x_loop x_size y_size matrix y x_size 0 transp with
    | none => none
    | some t => transpose_y_loop x_size y_size matrix n (y + 1) t

/-- The function `transpose` (lines 68-81).  `matrix` is `none` for a `NULL` pointer;
`transp` is the buffer the reference argument points to.  The value is `none` when the
loops access memory outside a buffer, otherwise the `bool` returned and the final
`transp`; the `new` of line 73 is taken to succeed and yields
`x_size * y_size` (an `unsigned int` product) unwritten cells. -/
def transpose (x_size y_size : Nat) (matrix : Option (List α))
    (transp : Option (List (Option α))) : Option (Bool × Option (List (Option α))) :=
  match matrix with
  | none => some (false, transp)
  | some m =>
    match transpose_y_loop x_size y_size m y_size 0
        (List.replicate ((x_size * y_size) % uint_mod) none) with
    | none => none
    | some t => some (true, some t)

/-- Loop of `mat_log10_2d` (lines 47-59) with `n` iterations left to run from index `i`
on; `log10` is the library function of that name.  The value is `none` when the loop
reads outside the buffer, otherwise the `bool` returned and the final buffer. -/
def mat_log10_2d_loop [LinearOrder α] [Zero α] (log10 : α → α) :
    Nat → Nat → List α → Option (Bool × List α)
  | 0, _, data => some (true, data)
  | n + 1, i, data =>
    match data[i]? with
    | none => none
    | some v =>
      if v ≤ 0 then
        if v = 0 then
          mat_log10_2d_loop log10 n (i + 1) (data.set i 0)
        else
          some (false, data)
      else
        mat_log10_2d_loop log10 n (i + 1) (data.set i (log10 v))

/-- The function `mat_log10_2d` (lines 42-61).  `data` is `none` for a `NULL` pointer;
the loop bound `x_size * y_size` is an `unsigned int` product. -/
def mat_log10_2d [LinearOrder α] [Zero α] (log10 : α → α) (x_size y_size : Nat)
    (data : Option (List α)) : Option (Bool × Option (List α)) :=
  match data with
  | none => some (false, none)
  | some d =>
    match mat_log10_2d_loop log10 ((x_size * y_size) % uint_mod) 0 d with
    | none => none
    | some r => some (r.1, some r.2)

/-- What one iteration of `mat_log10_2d` leaves in place of a value `v` that is not
negative: zero for zero, `log10 v` otherwise. -/
def log10_cell [LinearOrder α] [Zero α] (log10 : α → α) (v : α) : α :=
  if v = 0 then 0 else log10 v

/-- Progress of `transpose` on a buffer `t` of `x_size * y_size` cells: the cells of the
rows below `y` and, in row `y`, of the columns below `x` hold their final value, the
other cells are still unwritten.  Cell `j` belongs to row `j % y_size` and column
`j / y_size` of the input. -/
def transposed_upto (x_size y_size : Nat) (matrix : List α) (y x : Nat)
    (t : List (Option α)) : Prop :=
  t.length = x_size * y_size ∧
  ∀ j, j < x_size * y_size →
    t[j]? = some (if j % y_size < y ∨ (j % y_size = y ∧ j / y_size < x)
      then matrix[x_size * (j % y_size) + j / y_size]? else none)

end real_buffers

section integrals

variable {α : Type}

/-- Quotient of a real by a complex number, `operator/(const T&, const complex<T>&)` of
`std::complex`: the real is promoted to a complex number with imaginary part zero. -/
def std_real_div [Field α] (s : α) (z : complex_t α) : complex_t α :=
  std_div ⟨s, 0⟩ z

/-- Difference of a real and a complex number, `operator-(const T&, const complex<T>&)`
of `std::complex`. -/
def std_real_sub [Field α] (s : α) (z : complex_t α) : complex_t α :=
  ⟨s - z.re, -z.im⟩

/-- The function `integral_e` (lines 419-427); `exp` is the complex exponential of the
standard library.  `fpclassify(v) == FP_ZERO` holds exactly when `v` is zero. -/
def integral_e [Field α] [DecidableEq α] (exp : complex_t α → complex_t α)
    (x1 x2 : α) (k : complex_t α) : complex_t α :=
  if k.re = 0 ∧ k.im = 0 then
    ⟨x2 - x1, 0⟩
  else
    let ik : complex_t α := (⟨0, 1⟩ : complex_t α) * k
    std_real_div 1 ik * (exp (operator_mul_real ik x2) - exp (operator_mul_real ik x1))

/-- The function `integral_xe` (lines 431-440); `exp` is the complex exponential of the
standard library. -/
def integral_xe [Field α] [DecidableEq α] (exp : complex_t α → complex_t α)
    (x1 x2 a b : α) (k : complex_t α) : complex_t α :=
  if k.re = 0 ∧ k.im = 0 then
    ⟨a * (x2 * x2 - x1 * x1) / 2 + b * (x2 - x1), 0⟩
  else
    let ik : complex_t α := (⟨0, 1⟩ : complex_t α) * k
    std_real_div 1 ik
      * (std_real_sub (a * x2 + b) (std_real_div a ik) * exp (operator_mul_real ik x2)
        - std_real_sub (a * x1 + b) (std_real_div a ik) * exp (operator_mul_real ik x1))

/-- The complex number a `complex_t` over the reals stands for. -/
def toComplex (z : complex_t ℝ) : ℂ :=
  ⟨z.re, z.im⟩

end integrals

section vector3

/-- Modelled from the spec: `vector3_t`, declared in `utilities.hpp`, is "exactly 3 real
scalars"; `vec0`, `vec1` and `vec2` are `v[0]`, `v[1]` and `v[2]`. -/
structure vector3_t (α : Type) where
  vec0 : α
  vec1 : α
  vec2 : α
deriving DecidableEq, Repr

variable {α : Type}

/-- Component `i` of a 3-vector, `v[i]`. -/
def vector3_t.get (v : vector3_t α) : Fin 3 → α
  | 0 => v.vec0
  | 1 => v.vec1
  | 2 => v.vec2

/-- Row `i` of the 3 x 3 matrix whose rows are `a`, `b`, `c`. -/
def rows (a b c : vector3_t α) : Fin 3 → vector3_t α
  | 0 => a
  | 1 => b
  | 2 => c

/-- The specialisation `min <vector3_t>` (lines 23-27). -/
def min [LinearOrder α] (a b : vector3_t α) : vector3_t α :=
  ⟨if a.vec0 < b.vec0 then a.vec0 else b.vec0,
   if a.vec1 < b.vec1 then a.vec1 else b.vec1,
   if a.vec2 < b.vec2 then a.vec2 else b.vec2⟩

/-- The specialisation `max <vector3_t>` (lines 32-36). -/
def max [LinearOrder α] (a b : vector3_t α) : vector3_t α :=
  ⟨if a.vec0 > b.vec0 then a.vec0 else b.vec0,
   if a.vec1 > b.vec1 then a.vec1 else b.vec1,
   if a.vec2 > b.vec2 then a.vec2 else b.vec2⟩

/-- The nine cells `A[0] = a[0]; ... A[8] = c[2]` that lines 99-104 of `mat_mul_3x3`
fill from three rows; an array is the map from an index to the content of that cell. -/
def rows_array [Zero α] (a b c : vector3_t α) : Nat → α
  | 0 => a.vec0
  | 1 => a.vec1
  | 2 => a.vec2
  | 3 => b.vec0
  | 4 => b.vec1
  | 5 => b.vec2
  | 6 => c.vec0
  | 7 => c.vec1
  | 8 => c.vec2
  | _ => 0

/-- Innermost loop of `mat_mul_3x3` (lines 109-111),
`for(int k = 0; k < 3; k ++) C[3 * i + j] += A[3 * i + k] * B[3 * k + j]`,
with `n` iterations left to run from `k` on. -/
def mat_mul_3x3_k_loop [Add α] [Mul α] (A B : Nat → α) (i j : Nat) :
    Nat → Nat → (Nat → α) → (Nat → α)
  | 0, _, C => C
  | n + 1, k, C =>
    mat_mul_3x3_k_loop A B i j n (k + 1)
      (Function.update C (3 * i + j) (C (3 * i + j) + A (3 * i + k) * B (3 * k + j)))

/-- Middle loop of `mat_mul_3x3` (lines 107-112): `C[3 * i + j] = 0.0` and then the
loop over `k`, for `n` values of `j` from `j` on. -/
def mat_mul_3x3_j_loop [Zero α] [Add α] [Mul α] (A B : Nat → α) (i : Nat) :
    Nat → Nat → (Nat → α) → (Nat → α)
  | 0, _, C => C
  | n + 1, j, C =>
    mat_mul_3x3_j_loop A B i n (j + 1)
      (mat_mul_3x3_k_loop A B i j 3 0 (Function.update C (3 * i + j) 0))

/-- Outer loop of `mat_mul_3x3` (lines 106-113), for `n` values of `i` from `i` on. -/
def mat_mul_3x3_i_loop [Zero α] [Add α] [Mul α] (A B : Nat → α) :
    Nat → Nat → (Nat → α) → (Nat → α)
  | 0, _, C => C
  | n + 1, i, C => mat_mul_3x3_i_loop A B n (i + 1) (mat_mul_3x3_j_loop A B i 3 0 C)

/-- The function `mat_mul_3x3` (lines 92-123): the `bool` returned and the final `x`,
`y`, `z`.  The three `new` are taken to succeed; every cell of the fresh array `C` is
set to `0.0` before it is read, so its initial content is immaterial. -/
def mat_mul_3x3 [Zero α] [Add α] [Mul α] (a b c d e f : vector3_t α)
    (_x _y _z : vector3_t α) : Bool × vector3_t α × vector3_t α × vector3_t α :=
  let C := mat_mul_3x3_i_loop (rows_array a b c) (rows_array d e f) 3 0 (fun _ => 0)
  (true, ⟨C 0, C 1, C 2⟩, ⟨C 3, C 4, C 5⟩, ⟨C 6, C 7, C 8⟩)

/-- The function `mat_mul_3x1` (lines 135-141): the `bool` returned and the final `x`. -/
def mat_mul_3x1 [Add α] [Mul α] (a b c d : vector3_t α) (_x : vector3_t α) :
    Bool × vector3_t α :=
  (true, ⟨a.vec0 * d.vec0 + a.vec1 * d.vec1 + a.vec2 * d.vec2,
          b.vec0 * d.vec0 + b.vec1 * d.vec1 + b.vec2 * d.vec2,
          c.vec0 * d.vec0 + c.vec1 * d.vec1 + c.vec2 * d.vec2⟩)

/-- The comparison `bool operator<(complex_t a, complex_t b)` (lines 155-161). -/
def operator_lt [LinearOrder α] (a b : complex_t α) : Bool :=
  if a.re < b.re then true
  else if a.re = b.re ∧ a.im < b.im then true
  else false

end vector3

section unary

variable {α : Type}

/-- The loop `for(i = matrix.begin(); i != matrix.end(); ++ i) result.push_back(f (*i))`
of the out-of-place operations on one sequence; `i` is the unread part of `matrix`. -/
def push_back_each {β : Type} (f : β → β) : List β → List β → List β
  | [], result => result
  | a :: i, result => push_back_each f i (result ++ [f a])

/-- The loop `for(i = matrix.begin(); i != matrix.end(); ++ i) *i = f (*i)` of the
in-place operations on one sequence; the value is the final content of `matrix`. -/
def assign_each {β : Type} (f : β → β) : List β → List β
  | [] => []
  | a :: i => f a :: assign_each f i

/-- The overload `mat_mul(real_t scalar, const complex_vec_t& matrix, result)`
(lines 236-242); `result.clear()` discards what `result` held. -/
def mat_mul_real [Mul α] (scalar : α) (matrix _result : List (complex_t α)) :
    Bool × List (complex_t α) :=
  (true, push_back_each (fun c => operator_mul_real c scalar) matrix [])

/-- The overload `mat_mul(complex_t scalar, const complex_vec_t& matrix, result)`
(lines 244-250). -/
def mat_mul_complex [Add α] [Sub α] [Mul α] (scalar : complex_t α)
    (matrix _result : List (complex_t α)) : Bool × List (complex_t α) :=
  (true, push_back_each (fun c => c * scalar) matrix [])

/-- The overload `mat_mul(const complex_vec_t& matrix, real_t scalar, result)`
(lines 252-254). -/
def mat_mul_matrix_real [Mul α] (matrix : List (complex_t α)) (scalar : α)
    (result : List (complex_t α)) : Bool × List (complex_t α) :=
  mat_mul_real scalar matrix result

/-- The overload `mat_mul(const complex_vec_t& matrix, complex_t scalar, result)`
(lines 256-258). -/
def mat_mul_matrix_complex [Add α] [Sub α] [Mul α] (matrix : List (complex_t α))
    (scalar : complex_t α) (result : List (complex_t α)) : Bool × List (complex_t α) :=
  mat_mul_complex scalar matrix result

/-- The overload `mat_mul_in(real_t scalar, complex_vec_t& matrix)` (lines 263-268): the
`bool` returned and the final `matrix`. -/
def mat_mul_in_real [Mul α] (scalar : α) (matrix : List (complex_t α)) :
    Bool × List (complex_t α) :=
  (true, assign_each (fun c => operator_mul_real c scalar) matrix)

/-- The overload `mat_mul_in(complex_t scalar, complex_vec_t& matrix)` (lines 270-275). -/
def mat_mul_in_complex [Add α] [Sub α] [Mul α] (scalar : complex_t α)
    (matrix : List (complex_t α)) : Bool × List (complex_t α) :=
  (true, assign_each (fun c => c * scalar) matrix)

/-- The overload `mat_mul_in(complex_vec_t& matrix, real_t scalar)` (lines 277-279). -/
def mat_mul_in_matrix_real [Mul α] (matrix : List (complex_t α)) (scalar : α) :
    Bool × List (complex_t α) :=
  mat_mul_in_real scalar matrix

/-- The overload `mat_mul_in(complex_vec_t& matrix, complex_t scalar)` (lines 281-283). -/
def mat_mul_in_matrix_complex [Add α] [Sub α] [Mul α] (matrix : List (complex_t α))
    (scalar : complex_t α) : Bool × List (complex_t α) :=
  mat_mul_in_complex scalar matrix

/-- The function `mat_sqr` (lines 372-378). -/
def mat_sqr [Add α] [Sub α] [Mul α] (matrix _result : List (complex_t α)) :
    Bool × List (complex_t α) :=
  (true, push_back_each (fun c => c * c) matrix [])

/-- The function `mat_sqr_in` (lines 380-386). -/
def mat_sqr_in [Add α] [Sub α] [Mul α] (matrix : List (complex_t α)) :
    Bool × List (complex_t α) :=
  (true, assign_each (fun c => c * c) matrix)

/-- The function `mat_exp` (lines 406-410); `exp` is the complex exponential of the
standard library.  The body ends after the loop without a `return` statement, so the
source does not determine the `bool` handed back: `none` stands for it. -/
def mat_exp (exp : complex_t α → complex_t α) (matrix _result : List (complex_t α)) :
    Option Bool × List (complex_t α) :=
  (none, push_back_each exp matrix [])

/-- The function `mat_exp_in` (lines 413-415), which likewise ends without a `return`
statement. -/
def mat_exp_in (exp : complex_t α → complex_t α) (matrix : List (complex_t α)) :
    Option Bool × List (complex_t α) :=
  (none, assign_each exp matrix)

end unary

/-! ## Helper lemmas on the two loops -/

section loops

variable {β : Type}

theorem push_back_loop_eq (op : β → β → β) (m1 m2 result : List β) :
    push_back_loop op m1 m2 result = result ++ List.zipWith op m1 m2 := by
  induction m1 generalizing m2 result with
  | nil => simp [push_back_loop]
  | cons a i1 ih =>
    cases m2 with
    | nil => simp [push_back_loop]
    | cons b i2 => simp [push_back_loop, ih]

theorem assign_loop_eq (op : β → β → β) (m1 m2 : List β) (h : m1.length = m2.length) :
    assign_loop op m1 m2 = List.zipWith op m1 m2 := by
  induction m1 generalizing m2 with
  | nil => simp [assign_loop]
  | cons a i1 ih =>
    cases m2 with
    | nil => simp at h
    | cons b i2 =>
      simp only [List.length_cons, Nat.add_right_cancel_iff] at h
      simp [assign_loop, ih i2 h]

theorem zipWith_getElem? (op : β → β → β) (m1 m2 : List β) (i : Nat)
    (h1 : i < m1.length) (h2 : i < m2.length) :
    (List.zipWith op m1 m2)[i]? = some (op m1[i] m2[i]) := by
  rw [List.getElem?_eq_getElem (by simp [h1, h2])]
  simp

end loops

/-! ## Shape-checked element-wise operations -/

section shape_checked

variable {α : Type}

/-- C1: for `mat_add`, `mat_dot_prod` and `mat_dot_div`, whenever the two dimension
triples differ in some component or the two sequences differ in length, the operation
returns `false` and `result` is exactly what it was before the call. -/
theorem out_of_place_shape_mismatch [Add α] [Sub α] [Mul α] [Div α]
    (x1 y1 z1 x2 y2 z2 : Nat) (matrix1 matrix2 result : List (complex_t α))
    (h : x1 ≠ x2 ∨ y1 ≠ y2 ∨ z1 ≠ z2 ∨ matrix1.length ≠ matrix2.length) :
    mat_add x1 y1 z1 matrix1 x2 y2 z2 matrix2 result = (false, result)
    ∧ mat_dot_prod x1 y1 z1 matrix1 x2 y2 z2 matrix2 result = (false, result)
    ∧ mat_dot_div x1 y1 z1 matrix1 x2 y2 z2 matrix2 result = (false, result) := by
  have hc : (x1 != x2 || y1 != y2 || z1 != z2 || matrix1.length != matrix2.length)
      = true := by
    simpa [or_assoc] using h
  refine ⟨?_, ?_, ?_⟩
  · simp only [mat_add, hc, if_true]
  · simp only [mat_dot_prod, hc, if_true]
  · simp only [mat_dot_div, hc, if_true]

/-- Witness for C1: triples `(2,2,2)` and `(2,2,3)` with sequences of lengths 1 and 1. -/
theorem out_of_place_shape_mismatch_witness :
    mat_add 2 2 2 [(⟨1, 2⟩ : complex_t ℚ)] 2 2 3 [⟨3, 4⟩] [⟨7, 7⟩] = (false, [⟨7, 7⟩])
    ∧ mat_dot_prod 2 2 2 [(⟨1, 2⟩ : complex_t ℚ)] 2 2 3 [⟨3, 4⟩] [⟨7, 7⟩]
        = (false, [⟨7, 7⟩])
    ∧ mat_dot_div 2 2 2 [(⟨1, 2⟩ : complex_t ℚ)] 2 2 3 [⟨3, 4⟩] [⟨7, 7⟩]
        = (false, [⟨7, 7⟩]) :=
  out_of_place_shape_mismatch 2 2 2 2 2 3 [⟨1, 2⟩] [⟨3, 4⟩] [⟨7, 7⟩]
    (Or.inr (Or.inr (Or.inl (by decide))))

/-- C2: for `mat_add_in`, `mat_dot_prod_in` and `mat_dot_div_in`, whenever the two
dimension triples differ in some component or the two sequences differ in length, the
operation returns `false` and leaves both `matrix1` and `matrix2` as they were. -/
theorem in_place_shape_mismatch [Add α] [Sub α] [Mul α] [Div α]
    (x1 y1 z1 x2 y2 z2 : Nat) (matrix1 matrix2 : List (complex_t α))
    (h : x1 ≠ x2 ∨ y1 ≠ y2 ∨ z1 ≠ z2 ∨ matrix1.length ≠ matrix2.length) :
    mat_add_in x1 y1 z1 matrix1 x2 y2 z2 matrix2 = (false, matrix1, matrix2)
    ∧ mat_dot_prod_in x1 y1 z1 matrix1 x2 y2 z2 matrix2 = (false, matrix1, matrix2)
    ∧ mat_dot_div_in x1 y1 z1 matrix1 x2 y2 z2 matrix2 = (false, matrix1, matrix2) := by
  have hc : (x1 != x2 || y1 != y2 || z1 != z2 || matrix1.length != matrix2.length)
      = true := by
    simpa [or_assoc] using h
  refine ⟨?_, ?_, ?_⟩
  · simp only [mat_add_in, hc, if_true]
  · simp only [mat_dot_prod_in, hc, if_true]
  · simp only [mat_dot_div_in, hc, if_true]

/-- Witness for C2: equal triples with sequences of lengths 2 and 1. -/
theorem in_place_shape_mismatch_witness :
    mat_add_in 1 2 1 [(⟨1, 2⟩ : complex_t ℚ), ⟨5, 6⟩] 1 2 1 [⟨3, 4⟩]
        = (false, [⟨1, 2⟩, ⟨5, 6⟩], [⟨3, 4⟩])
    ∧ mat_dot_prod_in 1 2 1 [(⟨1, 2⟩ : complex_t ℚ), ⟨5, 6⟩] 1 2 1 [⟨3, 4⟩]
        = (false, [⟨1, 2⟩, ⟨5, 6⟩], [⟨3, 4⟩])
    ∧ mat_dot_div_in 1 2 1 [(⟨1, 2⟩ : complex_t ℚ), ⟨5, 6⟩] 1 2 1 [⟨3, 4⟩]
        = (false, [⟨1, 2⟩, ⟨5, 6⟩], [⟨3, 4⟩]) :=
  in_place_shape_mismatch 1 2 1 1 2 1 [⟨1, 2⟩, ⟨5, 6⟩] [⟨3, 4⟩]
    (Or.inr (Or.inr (Or.inr (by decide))))

/-- The shape test passes on equal triples and equal lengths. -/
theorem shape_test_pass (x y z n1 n2 : Nat) (h : n1 = n2) :
    (x != x || y != y || z != z || n1 != n2) = false := by
  simp [h]

theorem mat_add_eq [Add α] (x y z : Nat) (a b result : List (complex_t α))
    (hlen : a.length = b.length) :
    mat_add x y z a x y z b result = (true, List.zipWith (fun p q => p + q) a b) := by
  simp only [mat_add, shape_test_pass x y z _ _ hlen, push_back_loop_eq, List.nil_append]
  rfl

theorem mat_dot_prod_eq [Add α] [Sub α] [Mul α] (x y z : Nat)
    (a b result : List (complex_t α)) (hlen : a.length = b.length) :
    mat_dot_prod x y z a x y z b result
      = (true, List.zipWith (fun p q => p * q) a b) := by
  simp only [mat_dot_prod, shape_test_pass x y z _ _ hlen, push_back_loop_eq,
    List.nil_append]
  rfl

theorem mat_dot_div_eq [Add α] [Sub α] [Mul α] [Div α] (x y z : Nat)
    (a b result : List (complex_t α)) (hlen : a.length = b.length) :
    mat_dot_div x y z a x y z b result
      = (true, List.zipWith (fun p q => p / q) a b) := by
  simp only [mat_dot_div, shape_test_pass x y z _ _ hlen, push_back_loop_eq,
    List.nil_append]
  rfl

/-- C3: on equal dimension triples and equal-length sequences `a`, `b`, whatever
`result` held before, `mat_add`, `mat_dot_prod` and `mat_dot_div` return `true`, the
new `result` is as long as `a`, and at every index `i` it holds `a[i] + b[i]`, the
complex product `(ac - bd) + (ad + bc)i` of `a[i]` and `b[i]`, and `a[i] / b[i]`
respectively: a function of the two elements at index `i` alone. -/
theorem out_of_place_elementwise [Add α] [Sub α] [Mul α] [Div α]
    (x y z : Nat) (a b result : List (complex_t α)) (hlen : a.length = b.length) :
    ((mat_add x y z a x y z b result).1 = true
      ∧ (mat_add x y z a x y z b result).2.length = a.length
      ∧ ∀ i (ha : i < a.length) (hb : i < b.length),
          (mat_add x y z a x y z b result).2[i]? = some (a[i] + b[i]))
    ∧ ((mat_dot_prod x y z a x y z b result).1 = true
      ∧ (mat_dot_prod x y z a x y z b result).2.length = a.length
      ∧ ∀ i (ha : i < a.length) (hb : i < b.length),
          (mat_dot_prod x y z a x y z b result).2[i]? = some (a[i] * b[i])
          ∧ a[i] * b[i] = ⟨a[i].re * b[i].re - a[i].im * b[i].im,
                           a[i].re * b[i].im + a[i].im * b[i].re⟩)
    ∧ ((mat_dot_div x y z a x y z b result).1 = true
      ∧ (mat_dot_div x y z a x y z b result).2.length = a.length
      ∧ ∀ i (ha : i < a.length) (hb : i < b.length),
          (mat_dot_div x y z a x y z b result).2[i]? = some (a[i] / b[i])) := by
  rw [mat_add_eq x y z a b result hlen, mat_dot_prod_eq x y z a b result hlen,
    mat_dot_div_eq x y z a b result hlen]
  refine ⟨⟨rfl, ?_, ?_⟩, ⟨rfl, ?_, ?_⟩, ⟨rfl, ?_, ?_⟩⟩
  · simp [hlen]
  · intro i ha hb
    exact zipWith_getElem? _ a b i ha hb
  · simp [hlen]
  · intro i ha hb
    exact ⟨zipWith_getElem? _ a b i ha hb, rfl⟩
  · simp [hlen]
  · intro i ha hb
    exact zipWith_getElem? _ a b i ha hb

/-- Witness for C3: two sequences of length 2 under the triple `(2,1,1)`, read at
index 0. -/
theorem out_of_place_elementwise_witness :
    (mat_add 2 1 1 [(⟨1, 2⟩ : complex_t ℚ), ⟨0, 1⟩] 2 1 1 [⟨3, 4⟩, ⟨2, 0⟩] [⟨9, 9⟩]).2[0]?
        = some ⟨4, 6⟩
    ∧ (mat_dot_prod 2 1 1 [(⟨1, 2⟩ : complex_t ℚ), ⟨0, 1⟩] 2 1 1 [⟨3, 4⟩, ⟨2, 0⟩]
        [⟨9, 9⟩]).2[0]? = some ⟨-5, 10⟩
    ∧ (mat_dot_div 2 1 1 [(⟨1, 2⟩ : complex_t ℚ), ⟨0, 1⟩] 2 1 1 [⟨3, 4⟩, ⟨2, 0⟩]
        [⟨9, 9⟩]).2[0]? = some ⟨11 / 25, 2 / 25⟩ := by
  obtain ⟨⟨_, _, h1⟩, ⟨_, _, h2⟩, ⟨_, _, h3⟩⟩ :=
    out_of_place_elementwise 2 1 1 [(⟨1, 2⟩ : complex_t ℚ), ⟨0, 1⟩]
      [⟨3, 4⟩, ⟨2, 0⟩] [⟨9, 9⟩] rfl
  refine ⟨?_, ?_, ?_⟩
  · rw [h1 0 (by decide) (by decide)]
    show some (std_add _ _) = _
    norm_num [std_add]
  · rw [(h2 0 (by decide) (by decide)).1]
    show some (operator_mul _ _) = _
    norm_num [operator_mul]
  · rw [h3 0 (by decide) (by decide)]
    show some (std_div _ _) = _
    norm_num [std_div]

/-- Exact arithmetic: dividing the product `a * b` by a non-zero `b` gives back `a`. -/
theorem operator_mul_std_div_cancel [LinearOrderedField α] (a b : complex_t α)
    (hb : b ≠ ⟨0, 0⟩) : (a * b) / b = a := by
  obtain ⟨ar, ai⟩ := a
  obtain ⟨br, bi⟩ := b
  have hne : br * br + bi * bi ≠ 0 := by
    intro h0
    have h1 : br = 0 := by nlinarith [mul_self_nonneg br, mul_self_nonneg bi]
    have h2 : bi = 0 := by nlinarith [mul_self_nonneg br, mul_self_nonneg bi]
    exact hb (by rw [h1, h2])
  show std_div (operator_mul _ _) _ = _
  simp only [std_div, operator_mul, complex_t.mk.injEq]
  constructor
  · field_simp
    ring
  · field_simp
    ring

theorem zipWith_div_zipWith_mul [LinearOrderedField α] (A B : List (complex_t α))
    (hlen : A.length = B.length) (hB : ∀ b ∈ B, b ≠ ⟨0, 0⟩) :
    List.zipWith (fun p q => p / q) (List.zipWith (fun p q => p * q) A B) B = A := by
  induction A generalizing B with
  | nil => simp
  | cons a A ih =>
    cases B with
    | nil => simp at hlen
    | cons b B =>
      simp only [List.length_cons, Nat.add_right_cancel_iff] at hlen
      simp only [List.zipWith_cons_cons, List.cons.injEq]
      exact ⟨operator_mul_std_div_cancel a b (hB b (by simp)),
        ih B hlen (fun c hc => hB c (by simp [hc]))⟩

/-- C4: round trip, in exact arithmetic.  For equal-shaped, equal-length sequences `A`
and `B` where no element of `B` is zero, `mat_dot_prod(A, B)` succeeds with a result
`P`, `mat_dot_div(P, B)` succeeds with a result `Q`, and `Q[i] = A[i]` at every index. -/
theorem dot_prod_dot_div_round_trip [LinearOrderedField α] (x y z : Nat)
    (A B r1 r2 : List (complex_t α)) (hlen : A.length = B.length)
    (hB : ∀ b ∈ B, b ≠ ⟨0, 0⟩) :
    (mat_dot_prod x y z A x y z B r1).1 = true
    ∧ (mat_dot_div x y z (mat_dot_prod x y z A x y z B r1).2 x y z B r2).1 = true
    ∧ ∀ i (h : i < A.length),
        (mat_dot_div x y z (mat_dot_prod x y z A x y z B r1).2 x y z B r2).2[i]?
          = some A[i] := by
  rw [mat_dot_prod_eq x y z A B r1 hlen]
  have hP : (List.zipWith (fun p q => p * q) A B).length = B.length := by
    simp [hlen]
  rw [mat_dot_div_eq x y z _ B r2 hP, zipWith_div_zipWith_mul A B hlen hB]
  exact ⟨rfl, rfl, fun i h => List.getElem?_eq_getElem h⟩

/-- Witness for C4: `A = [1 + 2i, i]`, `B = [3 + 4i, 2]`. -/
theorem dot_prod_dot_div_round_trip_witness :
    (mat_dot_prod 2 1 1 [(⟨1, 2⟩ : complex_t ℚ), ⟨0, 1⟩] 2 1 1 [⟨3, 4⟩, ⟨2, 0⟩] []).1
        = true
    ∧ (mat_dot_div 2 1 1
        (mat_dot_prod 2 1 1 [(⟨1, 2⟩ : complex_t ℚ), ⟨0, 1⟩] 2 1 1 [⟨3, 4⟩, ⟨2, 0⟩] []).2
        2 1 1 [⟨3, 4⟩, ⟨2, 0⟩] []).1 = true
    ∧ ∀ i (h : i < [(⟨1, 2⟩ : complex_t ℚ), ⟨0, 1⟩].length),
        (mat_dot_div 2 1 1
          (mat_dot_prod 2 1 1 [(⟨1, 2⟩ : complex_t ℚ), ⟨0, 1⟩] 2 1 1 [⟨3, 4⟩, ⟨2, 0⟩]
            []).2
          2 1 1 [⟨3, 4⟩, ⟨2, 0⟩] []).2[i]?
          = some [(⟨1, 2⟩ : complex_t ℚ), ⟨0, 1⟩][i] :=
  dot_prod_dot_div_round_trip 2 1 1 [⟨1, 2⟩, ⟨0, 1⟩] [⟨3, 4⟩, ⟨2, 0⟩] [] [] rfl
    (by decide)

theorem std_add_comm [AddCommMagma α] (a b : complex_t α) : a + b = b + a := by
  show std_add a b = std_add b a
  simp only [std_add, add_comm]

/-- C5: `mat_add` commutes.  For sequences `A` and `B` with equal dimension triples and
equal lengths, `mat_add(A, B)` and `mat_add(B, A)` both return `true` and write the
same result sequence. -/
theorem mat_add_comm [AddCommMagma α] (x y z : Nat) (A B r1 r2 : List (complex_t α))
    (hlen : A.length = B.length) :
    (mat_add x y z A x y z B r1).1 = true
    ∧ (mat_add x y z B x y z A r2).1 = true
    ∧ (mat_add x y z A x y z B r1).2 = (mat_add x y z B x y z A r2).2 := by
  rw [mat_add_eq x y z A B r1 hlen, mat_add_eq x y z B A r2 hlen.symm]
  refine ⟨rfl, rfl, ?_⟩
  show List.zipWith _ A B = List.zipWith _ B A
  rw [List.zipWith_comm]
  congr 1
  funext p q
  exact std_add_comm q p

/-- Witness for C5: `A = [1 + 2i, i]`, `B = [3 + 4i, 2]`. -/
theorem mat_add_comm_witness :
    (mat_add 2 1 1 [(⟨1, 2⟩ : complex_t ℚ), ⟨0, 1⟩] 2 1 1 [⟨3, 4⟩, ⟨2, 0⟩] []).1 = true
    ∧ (mat_add 2 1 1 [(⟨3, 4⟩ : complex_t ℚ), ⟨2, 0⟩] 2 1 1 [⟨1, 2⟩, ⟨0, 1⟩] []).1 = true
    ∧ (mat_add 2 1 1 [(⟨1, 2⟩ : complex_t ℚ), ⟨0, 1⟩] 2 1 1 [⟨3, 4⟩, ⟨2, 0⟩] []).2
        = (mat_add 2 1 1 [(⟨3, 4⟩ : complex_t ℚ), ⟨2, 0⟩] 2 1 1 [⟨1, 2⟩, ⟨0, 1⟩] []).2 :=
  mat_add_comm 2 1 1 [⟨1, 2⟩, ⟨0, 1⟩] [⟨3, 4⟩, ⟨2, 0⟩] [] [] rfl

end shape_checked

/-! ## transpose -/

section transpose_proofs

variable {α : Type}

theorem transpose_index_bound (a b x y : Nat) (hx : x < a) (hy : y < b) :
    b * x + y < a * b := by
  calc b * x + y < b * x + b := by omega
    _ = b * (x + 1) := by ring
    _ ≤ b * a := Nat.mul_le_mul_left b hx
    _ = a * b := Nat.mul_comm b a

theorem transpose_x_loop_spec (x_size y_size : Nat) (matrix : List α)
    (hlen : matrix.length = x_size * y_size) (hov : x_size * y_size < uint_mod)
    (y : Nat) (hy : y < y_size) :
    ∀ (n x : Nat) (t : List (Option α)), n + x = x_size →
      transposed_upto x_size y_size matrix y x t →
      ∃ t', transpose_x_loop x_size y_size matrix y n x t = some t'
        ∧ transposed_upto x_size y_size matrix y x_size t' := by
  intro n
  induction n with
  | zero =>
    intro x t hx hinv
    have hxe : x = x_size := by omega
    subst hxe
    exact ⟨t, rfl, hinv⟩
  | succ n ih =>
    intro x t hx hinv
    have hxlt : x < x_size := by omega
    have hin : x_size * y + x < x_size * y_size := by
      have := transpose_index_bound y_size x_size y x hy hxlt
      rwa [Nat.mul_comm y_size x_size] at this
    have hout : y_size * x + y < x_size * y_size :=
      transpose_index_bound x_size y_size x y hxlt hy
    have hv : matrix[x_size * y + x]? = some (matrix[x_size * y + x]) :=
      List.getElem?_eq_getElem (by rw [hlen]; exact hin)
    have hstep : transpose_x_loop x_size y_size matrix y (n + 1) x t
        = transpose_x_loop x_size y_size matrix y n (x + 1)
            (t.set (y_size * x + y) (some (matrix[x_size * y + x]))) := by
      simp only [transpose_x_loop, Nat.mod_eq_of_lt (lt_trans hin hov),
        Nat.mod_eq_of_lt (lt_trans hout hov), hv, hinv.1, hout, if_true]
    rw [hstep]
    apply ih (x + 1) _ (by omega)
    refine ⟨by simp [hinv.1], ?_⟩
    intro j hj
    have hypos : 0 < y_size := by omega
    rw [List.getElem?_set]
    by_cases hjeq : y_size * x + y = j
    · have hm : j % y_size = y := by
        rw [← hjeq, Nat.mul_add_mod, Nat.mod_eq_of_lt hy]
      have hd : j / y_size = x := by
        rw [← hjeq, Nat.mul_add_div hypos, Nat.div_eq_of_lt hy, Nat.add_zero]
      simp only [hjeq, hinv.1, hj, if_true, hm, hd, hv]
      simp
    · have hne : ¬ (j % y_size = y ∧ j / y_size = x) := by
        rintro ⟨hm, hd⟩
        apply hjeq
        rw [← hm, ← hd]
        exact Nat.div_add_mod j y_size
      rw [if_neg hjeq, hinv.2 j hj]
      have hiff : (j % y_size < y ∨ (j % y_size = y ∧ j / y_size < x + 1))
          ↔ (j % y_size < y ∨ (j % y_size = y ∧ j / y_size < x)) := by
        constructor
        · rintro (h | ⟨h1, h2⟩)
          · exact Or.inl h
          · refine Or.inr ⟨h1, ?_⟩
            rcases Nat.lt_succ_iff_lt_or_eq.mp h2 with h3 | h3
            · exact h3
            · exact absurd ⟨h1, h3⟩ hne
        · rintro (h | ⟨h1, h2⟩)
          · exact Or.inl h
          · exact Or.inr ⟨h1, by omega⟩
      simp only [hiff]

theorem transposed_upto_next_row (x_size y_size : Nat) (matrix : List α) (y : Nat)
    (t : List (Option α)) (h : transposed_upto x_size y_size matrix y x_size t) :
    transposed_upto x_size y_size matrix (y + 1) 0 t := by
  refine ⟨h.1, ?_⟩
  intro j hj
  rw [h.2 j hj]
  have hd : j / y_size < x_size := by
    apply Nat.div_lt_of_lt_mul
    rwa [Nat.mul_comm]
  have hiff : (j % y_size < y + 1 ∨ (j % y_size = y + 1 ∧ j / y_size < 0))
      ↔ (j % y_size < y ∨ (j % y_size = y ∧ j / y_size < x_size)) := by
    constructor
    · rintro (h1 | ⟨_, h2⟩)
      · rcases Nat.lt_succ_iff_lt_or_eq.mp h1 with h3 | h3
        · exact Or.inl h3
        · exact Or.inr ⟨h3, hd⟩
      · exact absurd h2 (Nat.not_lt_zero _)
    · rintro (h1 | ⟨h1, _⟩)
      · exact Or.inl (by omega)
      · exact Or.inl (by omega)
  simp only [hiff]

theorem transpose_y_loop_spec (x_size y_size : Nat) (matrix : List α)
    (hlen : matrix.length = x_size * y_size) (hov : x_size * y_size < uint_mod) :
    ∀ (n y : Nat) (t : List (Option α)), n + y = y_size →
      transposed_upto x_size y_size matrix y 0 t →
      ∃ t', transpose_y_loop x_size y_size matrix n y t = some t'
        ∧ transposed_upto x_size y_size matrix y_size 0 t' := by
  intro n
  induction n with
  | zero =>
    intro y t hy hinv
    have hye : y = y_size := by omega
    subst hye
    exact ⟨t, rfl, hinv⟩
  | succ n ih =>
    intro y t hy hinv
    obtain ⟨t1, h1, hinv1⟩ := transpose_x_loop_spec x_size y_size matrix hlen hov y
      (by omega) x_size 0 t rfl hinv
    obtain ⟨t2, h2, hinv2⟩ := ih (y + 1) t1 (by omega)
      (transposed_upto_next_row x_size y_size matrix y t1 hinv1)
    refine ⟨t2, ?_, hinv2⟩
    simp only [transpose_y_loop, h1, h2]

/-- Without overflow of `x_size * y_size`, `transpose` succeeds on a buffer of that
many cells, and cell `j` of the output holds the input cell of row `j % y_size` and
column `j / y_size`. -/
theorem transpose_cells (x_size y_size : Nat) (matrix : List α)
    (transp : Option (List (Option α)))
    (hlen : matrix.length = x_size * y_size) (hov : x_size * y_size < uint_mod) :
    ∃ out, transpose x_size y_size (some matrix) transp = some (true, some out)
      ∧ out.length = x_size * y_size
      ∧ ∀ j, j < x_size * y_size →
          out[j]? = some (matrix[x_size * (j % y_size) + j / y_size]?) := by
  have hinit : transposed_upto x_size y_size matrix 0 0
      (List.replicate ((x_size * y_size) % uint_mod) none) := by
    rw [Nat.mod_eq_of_lt hov]
    refine ⟨by simp, ?_⟩
    intro j hj
    simp [List.getElem?_replicate, hj]
  obtain ⟨out, hout, hinv⟩ := transpose_y_loop_spec x_size y_size matrix hlen hov
    y_size 0 _ rfl hinit
  refine ⟨out, ?_, hinv.1, ?_⟩
  · simp only [transpose, hout]
  · intro j hj
    rw [hinv.2 j hj]
    have hypos : 0 < y_size := by
      rcases Nat.eq_zero_or_pos y_size with h0 | h0
      · rw [h0] at hj; simp at hj
      · exact h0
    rw [if_pos (Or.inl (Nat.mod_lt j hypos))]

theorem transpose_x_loop_nil (x_size y_size : Nat) (matrix : List α) (y n x : Nat) :
    transpose_x_loop x_size y_size matrix y (n + 1) x [] = none := by
  simp only [transpose_x_loop]
  split <;> simp

/-- When the `unsigned int` product `x_size * y_size` wraps around to zero although
both sizes are positive, the very first write of `transpose` falls outside the
zero-length buffer it has allocated. -/
theorem transpose_wrapped_size (x_size y_size : Nat) (matrix : List α)
    (transp : Option (List (Option α))) (hx : 0 < x_size) (hy : 0 < y_size)
    (h0 : (x_size * y_size) % uint_mod = 0) :
    transpose x_size y_size (some matrix) transp = none := by
  obtain ⟨a, rfl⟩ : ∃ a, x_size = a + 1 := ⟨x_size - 1, by omega⟩
  obtain ⟨b, rfl⟩ : ∃ b, y_size = b + 1 := ⟨y_size - 1, by omega⟩
  simp only [transpose, h0, List.replicate_zero, transpose_y_loop, transpose_x_loop_nil]

/-- C6 as stated fails: for `x_size = y_size = 65536` and an input buffer of
`65536 * 65536` reals, the `unsigned int` product is 0, `transpose` allocates no cell
and writes outside its output buffer instead of returning success. -/
theorem transpose_overflow_counterexample :
    (List.replicate (65536 * 65536) (0 : ℚ)).length = 65536 * 65536
    ∧ transpose 65536 65536 (some (List.replicate (65536 * 65536) (0 : ℚ))) none
        = none :=
  ⟨List.length_replicate _ _,
   transpose_wrapped_size 65536 65536 _ none (by decide) (by decide) (by decide)⟩

/-- C6 (amended): for every input buffer of `x_size * y_size` reals where that product
does not overflow an `unsigned int` (it is below `2 ^ 32`), `transpose` returns `true`
and the output buffer has `x_size * y_size` cells with
`out[y_size * x + y] = matrix[x_size * y + x]` for all `x < x_size`, `y < y_size`, so
that every output cell is written; for `x_size = 2`, `y_size = 3` and the input
`[1,2,3,4,5,6]` the output is `[1,3,5,2,4,6]`. -/
theorem transpose_correct (x_size y_size : Nat) (matrix : List α)
    (transp : Option (List (Option α)))
    (hlen : matrix.length = x_size * y_size) (hov : x_size * y_size < 2 ^ 32) :
    (∃ out, transpose x_size y_size (some matrix) transp = some (true, some out)
      ∧ out.length = x_size * y_size
      ∧ (∀ x y, x < x_size → y < y_size →
          ∃ v, matrix[x_size * y + x]? = some v ∧ out[y_size * x + y]? = some (some v))
      ∧ (∀ j, j < x_size * y_size → ∃ v, out[j]? = some (some v)))
    ∧ transpose 2 3 (some [(1 : ℚ), 2, 3, 4, 5, 6]) none
        = some (true, some [some 1, some 3, some 5, some 2, some 4, some 6]) := by
  refine ⟨?_, by decide⟩
  obtain ⟨out, h1, h2, h3⟩ := transpose_cells x_size y_size matrix transp hlen hov
  refine ⟨out, h1, h2, ?_, ?_⟩
  · intro x y hx hy
    have hin : x_size * y + x < matrix.length := by
      rw [hlen, Nat.mul_comm x_size y_size]
      exact transpose_index_bound y_size x_size y x hy hx
    have hout := transpose_index_bound x_size y_size x y hx hy
    refine ⟨matrix[x_size * y + x], List.getElem?_eq_getElem hin, ?_⟩
    rw [h3 _ hout, Nat.mul_add_mod, Nat.mod_eq_of_lt hy, Nat.mul_add_div (by omega),
      Nat.div_eq_of_lt hy, Nat.add_zero, List.getElem?_eq_getElem hin]
  · intro j hj
    have hypos : 0 < y_size := by
      rcases Nat.eq_zero_or_pos y_size with h0 | h0
      · rw [h0] at hj; simp at hj
      · exact h0
    have hin : x_size * (j % y_size) + j / y_size < matrix.length := by
      rw [hlen, Nat.mul_comm x_size y_size]
      apply transpose_index_bound y_size x_size _ _ (Nat.mod_lt j hypos)
      apply Nat.div_lt_of_lt_mul
      rwa [Nat.mul_comm]
    exact ⟨matrix[x_size * (j % y_size) + j / y_size],
      by rw [h3 j hj, List.getElem?_eq_getElem hin]⟩

/-- Witness for C6 (amended): a 2 x 3 buffer. -/
theorem transpose_correct_witness :
    ∃ out, transpose 2 3 (some [(7 : ℚ), 8, 9, 10, 11, 12]) none = some (true, some out)
      ∧ out.length = 2 * 3
      ∧ ∀ j, j < 2 * 3 → ∃ v, out[j]? = some (some v) := by
  obtain ⟨⟨out, h1, h2, _, h4⟩, _⟩ :=
    transpose_correct 2 3 [(7 : ℚ), 8, 9, 10, 11, 12] none rfl (by decide)
  exact ⟨out, h1, h2, h4⟩

end transpose_proofs

/-! ## mat_log10_2d -/

section log10_proofs

variable {α : Type} [LinearOrder α] [Zero α]

/-- One iteration of the loop on a value that is not negative. -/
theorem mat_log10_2d_loop_step (log10 : α → α) (n i : Nat) (data : List α) (v : α)
    (hv : data[i]? = some v) (hnn : ¬ v < 0) :
    mat_log10_2d_loop log10 (n + 1) i data
      = mat_log10_2d_loop log10 n (i + 1) (data.set i (log10_cell log10 v)) := by
  simp only [mat_log10_2d_loop, hv, log10_cell]
  by_cases h0 : v = 0
  · simp [h0]
  · have hle : ¬ v ≤ 0 := fun hle => hnn (lt_of_le_of_ne hle h0)
    simp [h0, hle]

/-- One iteration of the loop on a negative value. -/
theorem mat_log10_2d_loop_stop (log10 : α → α) (n i : Nat) (data : List α) (v : α)
    (hv : data[i]? = some v) (hneg : v < 0) :
    mat_log10_2d_loop log10 (n + 1) i data = some (false, data) := by
  simp only [mat_log10_2d_loop, hv]
  simp [le_of_lt hneg, ne_of_lt hneg]

/-- The loop over `n` cells from index `i` on, none of them negative: it returns `true`
and has converted exactly these cells. -/
theorem mat_log10_2d_loop_success (log10 : α → α) :
    ∀ (n i : Nat) (data : List α), i + n ≤ data.length →
      (∀ k v, i ≤ k → k < i + n → data[k]? = some v → ¬ v < 0) →
      ∃ out, mat_log10_2d_loop log10 n i data = some (true, out)
        ∧ out.length = data.length
        ∧ ∀ k, out[k]? = if i ≤ k ∧ k < i + n then (data[k]?).map (log10_cell log10)
            else data[k]? := by
  intro n
  induction n with
  | zero =>
    intro i data _ _
    refine ⟨data, rfl, rfl, ?_⟩
    intro k
    rw [if_neg (by omega)]
  | succ n ih =>
    intro i data hlen hnn
    have hi : i < data.length := by omega
    have hv : data[i]? = some data[i] := List.getElem?_eq_getElem hi
    rw [mat_log10_2d_loop_step log10 n i data _ hv (hnn i _ (le_refl i) (by omega) hv)]
    obtain ⟨out, h1, h2, h3⟩ := ih (i + 1) (data.set i (log10_cell log10 data[i]))
      (by simp; omega)
      (by
        intro k v hk1 hk2 hkv
        rw [List.getElem?_set_ne (by omega)] at hkv
        exact hnn k v (by omega) (by omega) hkv)
    refine ⟨out, h1, by simpa using h2, ?_⟩
    intro k
    rw [h3 k]
    by_cases hki : k = i
    · subst hki
      rw [if_neg (by omega), if_pos (by omega), List.getElem?_set, if_pos rfl, if_pos hi, hv]
      rfl
    · rw [List.getElem?_set_ne (fun h => hki h.symm)]
      by_cases hc : i ≤ k ∧ k < i + (n + 1)
      · rw [if_pos hc, if_pos (by omega)]
      · rw [if_neg hc, if_neg (by omega)]

/-- The loop over `n` cells from index `i` on, the first negative one of them at index
`j`: it returns `false`, has converted the cells from `i` up to `j` and no other. -/
theorem mat_log10_2d_loop_failure (log10 : α → α) :
    ∀ (n i : Nat) (data : List α) (j : Nat) (w : α), i ≤ j → j < i + n →
      data[j]? = some w → w < 0 →
      (∀ k v, i ≤ k → k < j → data[k]? = some v → ¬ v < 0) →
      ∃ out, mat_log10_2d_loop log10 n i data = some (false, out)
        ∧ out.length = data.length
        ∧ ∀ k, out[k]? = if i ≤ k ∧ k < j then (data[k]?).map (log10_cell log10)
            else data[k]? := by
  intro n
  induction n with
  | zero =>
    intro i data j w hij hjn _ _ _
    omega
  | succ n ih =>
    intro i data j w hij hjn hw hneg hnn
    by_cases hje : i = j
    · subst hje
      rw [mat_log10_2d_loop_stop log10 n i data w hw hneg]
      refine ⟨data, rfl, rfl, ?_⟩
      intro k
      rw [if_neg (by omega)]
    · have hjlen : j < data.length := by
        by_contra hcon
        rw [List.getElem?_eq_none (by omega)] at hw
        exact absurd hw (by simp)
      have hi : i < data.length := by omega
      have hv : data[i]? = some data[i] := List.getElem?_eq_getElem hi
      rw [mat_log10_2d_loop_step log10 n i data _ hv (hnn i _ (le_refl i) (by omega) hv)]
      obtain ⟨out, h1, h2, h3⟩ := ih (i + 1) (data.set i (log10_cell log10 data[i])) j w
        (by omega) (by omega)
        (by rw [List.getElem?_set_ne hje]; exact hw) hneg
        (by
          intro k v hk1 hk2 hkv
          rw [List.getElem?_set_ne (by omega)] at hkv
          exact hnn k v (by omega) hk2 hkv)
      refine ⟨out, h1, by simpa using h2, ?_⟩
      intro k
      rw [h3 k]
      by_cases hki : k = i
      · subst hki
        rw [if_neg (by omega), if_pos (by omega), List.getElem?_set, if_pos rfl, if_pos hi,
          hv]
        rfl
      · rw [List.getElem?_set_ne (fun h => hki h.symm)]
        by_cases hc : i ≤ k ∧ k < j
        · rw [if_pos hc, if_pos (by omega)]
        · rw [if_neg hc, if_neg (by omega)]

/-- When the `unsigned int` product `x_size * y_size` wraps around to zero the loop of
`mat_log10_2d` does not run at all: the call returns `true` on an untouched buffer. -/
theorem mat_log10_2d_wrapped_size (log10 : α → α) (x_size y_size : Nat) (data : List α)
    (h0 : (x_size * y_size) % uint_mod = 0) :
    mat_log10_2d log10 x_size y_size (some data) = some (true, some data) := by
  simp only [mat_log10_2d, h0, mat_log10_2d_loop]

theorem log10_cell_spec (log10 : α → α) (v : α) :
    (v = 0 → log10_cell log10 v = 0) ∧ (0 < v → log10_cell log10 v = log10 v) := by
  refine ⟨fun h => by simp [log10_cell, h], fun h => ?_⟩
  simp [log10_cell, ne_of_gt h]

/-- C7 as stated fails: for `x_size = y_size = 65536` and a buffer of `65536 * 65536`
reals all equal to 10, the `unsigned int` loop bound is 0; `mat_log10_2d` returns
`true` but the first element is still 10, not `log10 10 = 1`. -/
theorem mat_log10_2d_overflow_counterexample :
    (List.replicate (65536 * 65536) (10 : ℝ)).length = 65536 * 65536
    ∧ (∀ v ∈ List.replicate (65536 * 65536) (10 : ℝ), ¬ v < 0)
    ∧ mat_log10_2d (Real.logb 10) 65536 65536
        (some (List.replicate (65536 * 65536) (10 : ℝ)))
        = some (true, some (List.replicate (65536 * 65536) (10 : ℝ)))
    ∧ (List.replicate (65536 * 65536) (10 : ℝ))[0]? = some 10
    ∧ (0 : ℝ) < 10 ∧ Real.logb 10 10 ≠ 10 := by
  refine ⟨List.length_replicate _ _, ?_,
    mat_log10_2d_wrapped_size _ 65536 65536 _ (by decide),
    List.getElem?_replicate_of_lt (by decide), by norm_num, ?_⟩
  · intro v hv
    rw [List.eq_of_mem_replicate hv]
    norm_num
  · rw [Real.logb_self_eq_one (by norm_num)]
    norm_num

/-- C7 (amended): for every buffer of `x_size * y_size` reals, where that product does
not overflow an `unsigned int` (it is below `2 ^ 32`), that contains no negative value,
`mat_log10_2d` returns `true` and afterwards every element that was zero is zero and
every element that was positive holds `log10` of its old value; in particular
`[0, 1, 10, 100]` becomes `[0, 0, 1, 2]`. -/
theorem mat_log10_2d_success (log10 : α → α) (x_size y_size : Nat) (data : List α)
    (hlen : data.length = x_size * y_size) (hov : x_size * y_size < 2 ^ 32)
    (hnn : ∀ v ∈ data, ¬ v < 0) :
    (∃ out, mat_log10_2d log10 x_size y_size (some data) = some (true, some out)
      ∧ out.length = data.length
      ∧ ∀ (i : Nat) (v : α), data[i]? = some v →
          (v = 0 → out[i]? = some 0) ∧ (0 < v → out[i]? = some (log10 v)))
    ∧ mat_log10_2d (Real.logb 10) 2 2 (some [0, 1, 10, 100])
        = some (true, some [0, 0, 1, 2]) := by
  constructor
  · obtain ⟨out, h1, h2, h3⟩ := mat_log10_2d_loop_success log10 (x_size * y_size) 0 data
      (by omega) (fun k v _ _ hkv => hnn v (List.getElem?_mem hkv))
    refine ⟨out, ?_, h2, ?_⟩
    · have hmod : (x_size * y_size) % uint_mod = x_size * y_size := Nat.mod_eq_of_lt hov
      simp only [mat_log10_2d, hmod, h1]
    · intro i v hiv
      have hi : i < data.length := by
        by_contra hcon
        rw [List.getElem?_eq_none (by omega)] at hiv
        exact absurd hiv (by simp)
      have hout : out[i]? = some (log10_cell log10 v) := by
        rw [h3 i, if_pos ⟨Nat.zero_le i, by omega⟩, hiv]
        rfl
      rw [hout]
      exact ⟨fun h => by rw [(log10_cell_spec log10 v).1 h],
        fun h => by rw [(log10_cell_spec log10 v).2 h]⟩
  · have h100 : Real.logb 10 100 = 2 := by
      rw [show (100 : ℝ) = 10 ^ (2 : ℕ) by norm_num, Real.logb_pow]
      rw [Real.logb_self_eq_one (by norm_num)]
      norm_num
    have h10 : Real.logb 10 10 = 1 := Real.logb_self_eq_one (by norm_num)
    have hmod : (2 * 2) % uint_mod = 4 := by decide
    simp only [mat_log10_2d, hmod]
    norm_num [mat_log10_2d_loop, h100, h10]

/-- Witness for C7 (amended): the buffer `[0, 1, 10, 100]` as a 2 x 2 matrix. -/
theorem mat_log10_2d_success_witness :
    ∃ out, mat_log10_2d (Real.logb 10) 2 2 (some [0, 1, 10, 100]) = some (true, some out)
      ∧ out.length = [(0 : ℝ), 1, 10, 100].length := by
  obtain ⟨⟨out, h1, h2, _⟩, _⟩ :=
    mat_log10_2d_success (Real.logb 10) 2 2 [0, 1, 10, 100] rfl (by norm_num)
      (by intro v hv; simp at hv; rcases hv with h | h | h | h <;> rw [h] <;> norm_num)
  exact ⟨out, h1, h2⟩

/-- C8 as stated fails: for `x_size = y_size = 65536` and a buffer of `65536 * 65536`
reals all equal to -1, the `unsigned int` loop bound is 0 and `mat_log10_2d` returns
`true` although the buffer holds a negative value. -/
theorem mat_log10_2d_negative_overflow_counterexample :
    (List.replicate (65536 * 65536) (-1 : ℝ)).length = 65536 * 65536
    ∧ (∃ v ∈ List.replicate (65536 * 65536) (-1 : ℝ), v < 0)
    ∧ mat_log10_2d (Real.logb 10) 65536 65536
        (some (List.replicate (65536 * 65536) (-1 : ℝ)))
        = some (true, some (List.replicate (65536 * 65536) (-1 : ℝ))) := by
  refine ⟨List.length_replicate _ _, ⟨-1, ?_, by norm_num⟩,
    mat_log10_2d_wrapped_size _ 65536 65536 _ (by decide)⟩
  exact List.mem_replicate.mpr ⟨by decide, rfl⟩

/-- C8 (amended): for every buffer of `x_size * y_size` reals, where that product does
not overflow an `unsigned int` (it is below `2 ^ 32`), that contains a negative value,
`mat_log10_2d` returns `false` and afterwards, with `j` the index of the first negative
element, every element below `j` has been converted (zero kept as zero, positive
replaced by its `log10`) while the element at `j` and every element after it are
unchanged. -/
theorem mat_log10_2d_failure (log10 : α → α) (x_size y_size : Nat) (data : List α)
    (hlen : data.length = x_size * y_size) (hov : x_size * y_size < 2 ^ 32)
    (hneg : ∃ v ∈ data, v < 0) :
    ∃ (j : Nat) (w : α) (out : List α), data[j]? = some w ∧ w < 0
      ∧ (∀ (k : Nat) (v : α), k < j → data[k]? = some v → ¬ v < 0)
      ∧ mat_log10_2d log10 x_size y_size (some data) = some (false, some out)
      ∧ out.length = data.length
      ∧ (∀ (k : Nat) (v : α), k < j → data[k]? = some v →
          (v = 0 → out[k]? = some 0) ∧ (0 < v → out[k]? = some (log10 v)))
      ∧ (∀ k : Nat, j ≤ k → out[k]? = data[k]?) := by
  classical
  obtain ⟨v0, hv0, hv0neg⟩ := hneg
  obtain ⟨i0, hi0⟩ := List.getElem?_of_mem hv0
  have hex : ∃ k : Nat, ∃ w : α, data[k]? = some w ∧ w < 0 := ⟨i0, v0, hi0, hv0neg⟩
  obtain ⟨w, hw, hwneg⟩ := Nat.find_spec hex
  have hmin : ∀ k v, k < Nat.find hex → data[k]? = some v → ¬ v < 0 :=
    fun k v hk hkv hvneg => Nat.find_min hex hk ⟨v, hkv, hvneg⟩
  have hjlen : Nat.find hex < data.length := by
    by_contra hcon
    rw [List.getElem?_eq_none (by omega)] at hw
    exact absurd hw (by simp)
  obtain ⟨out, h1, h2, h3⟩ := mat_log10_2d_loop_failure log10 (x_size * y_size) 0 data
    (Nat.find hex) w (Nat.zero_le _) (by omega) hw hwneg
    (fun k v _ hk hkv => hmin k v hk hkv)
  refine ⟨Nat.find hex, w, out, hw, hwneg, hmin, ?_, h2, ?_, ?_⟩
  · have hmod : (x_size * y_size) % uint_mod = x_size * y_size := Nat.mod_eq_of_lt hov
    simp only [mat_log10_2d, hmod, h1]
  · intro k v hk hkv
    have hout : out[k]? = some (log10_cell log10 v) := by
      rw [h3 k, if_pos ⟨Nat.zero_le k, hk⟩, hkv]
      rfl
    rw [hout]
    exact ⟨fun h => by rw [(log10_cell_spec log10 v).1 h],
      fun h => by rw [(log10_cell_spec log10 v).2 h]⟩
  · intro k hk
    rw [h3 k, if_neg (by omega)]

/-- Witness for C8 (amended): the buffer `[0, 10, -1, 100]` as a 2 x 2 matrix. -/
theorem mat_log10_2d_failure_witness :
    ∃ (j : Nat) (w : ℝ) (out : List ℝ), [(0 : ℝ), 10, -1, 100][j]? = some w ∧ w < 0
      ∧ mat_log10_2d (Real.logb 10) 2 2 (some [0, 10, -1, 100]) = some (false, some out)
      ∧ ∀ k : Nat, j ≤ k → out[k]? = [(0 : ℝ), 10, -1, 100][k]? := by
  obtain ⟨j, w, out, h1, h2, _, h4, _, _, h7⟩ :=
    mat_log10_2d_failure (Real.logb 10) 2 2 [0, 10, -1, 100] rfl (by norm_num)
      ⟨-1, by simp, by norm_num⟩
  exact ⟨j, w, out, h1, h2, h4, h7⟩

end log10_proofs

/-! ## Closed-form integral kernels -/

section integral_proofs

theorem toComplex_mul (a b : complex_t ℝ) : toComplex (a * b) = toComplex a * toComplex b := by
  apply Complex.ext
  · show a.re * b.re - a.im * b.im = _
    simp [toComplex]
  · show a.re * b.im + a.im * b.re = _
    simp [toComplex]

theorem toComplex_sub (a b : complex_t ℝ) : toComplex (a - b) = toComplex a - toComplex b := by
  apply Complex.ext
  · show a.re - b.re = _
    simp [toComplex]
  · show a.im - b.im = _
    simp [toComplex]

theorem toComplex_mul_real (z : complex_t ℝ) (s : ℝ) :
    toComplex (operator_mul_real z s) = toComplex z * (s : ℂ) := by
  apply Complex.ext <;> simp [toComplex, operator_mul_real]

theorem toComplex_std_div (a b : complex_t ℝ) :
    toComplex (std_div a b) = toComplex a / toComplex b := by
  apply Complex.ext
  · simp [toComplex, std_div, Complex.div_re, Complex.normSq_apply, add_div]
  · simp [toComplex, std_div, Complex.div_im, Complex.normSq_apply, sub_div]

theorem toComplex_real_div (s : ℝ) (z : complex_t ℝ) :
    toComplex (std_real_div s z) = (s : ℂ) / toComplex z := by
  rw [std_real_div, toComplex_std_div]
  congr 1

theorem toComplex_real_sub (s : ℝ) (z : complex_t ℝ) :
    toComplex (std_real_sub s z) = (s : ℂ) - toComplex z := by
  apply Complex.ext <;> simp [toComplex, std_real_sub]

theorem toComplex_I : toComplex ⟨0, 1⟩ = Complex.I := by
  apply Complex.ext <;> simp [toComplex]

theorem toComplex_eq_zero (k : complex_t ℝ) : toComplex k = 0 ↔ k.re = 0 ∧ k.im = 0 := by
  constructor
  · intro h
    have h1 := congrArg Complex.re h
    have h2 := congrArg Complex.im h
    exact ⟨by simpa [toComplex] using h1, by simpa [toComplex] using h2⟩
  · rintro ⟨h1, h2⟩
    apply Complex.ext <;> simp [toComplex, h1, h2]

/-- Value of `integral_e` on its general branch, as a complex number. -/
theorem integral_e_nonzero (exp : complex_t ℝ → complex_t ℝ)
    (hexp : ∀ z, toComplex (exp z) = Complex.exp (toComplex z)) (x1 x2 : ℝ)
    (k : complex_t ℝ) (hk : ¬ (k.re = 0 ∧ k.im = 0)) :
    toComplex (integral_e exp x1 x2 k)
      = (1 / (Complex.I * toComplex k))
        * (Complex.exp (Complex.I * toComplex k * x2)
          - Complex.exp (Complex.I * toComplex k * x1)) := by
  simp only [integral_e, if_neg hk, toComplex_mul, toComplex_sub, hexp, toComplex_mul_real,
    toComplex_real_div, toComplex_I, Complex.ofReal_one]

/-- C9: with `exp` the complex exponential, `integral_e(x1, x2, k)` is the integral of
`e^{ikx}` over `[x1, x2]` for all reals `x1`, `x2` and every complex `k`; for non-zero
`k` it returns `(1/(ik)) * (e^{ik x2} - e^{ik x1})`; and for `x1 = 0`, `x2 = 1`, `k = i`
it equals `(1/(i*i)) * (e^{i*i} - e^0) = 1 - e^{-1}`, the integral of `e^{-x}` over
`[0, 1]`. -/
theorem integral_e_correct (exp : complex_t ℝ → complex_t ℝ)
    (hexp : ∀ z, toComplex (exp z) = Complex.exp (toComplex z)) (x1 x2 : ℝ)
    (k : complex_t ℝ) :
    toComplex (integral_e exp x1 x2 k)
        = ∫ x in x1..x2, Complex.exp (Complex.I * toComplex k * x)
    ∧ (k ≠ ⟨0, 0⟩ → toComplex (integral_e exp x1 x2 k)
        = (1 / (Complex.I * toComplex k))
          * (Complex.exp (Complex.I * toComplex k * x2)
            - Complex.exp (Complex.I * toComplex k * x1)))
    ∧ toComplex (integral_e exp 0 1 ⟨0, 1⟩)
        = (1 / (Complex.I * Complex.I))
          * (Complex.exp (Complex.I * Complex.I) - Complex.exp 0)
    ∧ (1 / (Complex.I * Complex.I))
          * (Complex.exp (Complex.I * Complex.I) - Complex.exp 0)
        = ((1 - Real.exp (-1) : ℝ) : ℂ)
    ∧ (∫ x in (0 : ℝ)..1, Real.exp (-x)) = 1 - Real.exp (-1) := by
  refine ⟨?_, ?_, ?_, ?_, ?_⟩
  · by_cases hk : k.re = 0 ∧ k.im = 0
    · have hK : toComplex k = 0 := (toComplex_eq_zero k).2 hk
      simp only [integral_e, if_pos hk, hK, mul_zero, zero_mul, Complex.exp_zero]
      rw [intervalIntegral.integral_const]
      apply Complex.ext <;> simp [toComplex]
    · have hK : toComplex k ≠ 0 := fun h => hk ((toComplex_eq_zero k).1 h)
      have hc : Complex.I * toComplex k ≠ 0 := mul_ne_zero Complex.I_ne_zero hK
      rw [integral_e_nonzero exp hexp x1 x2 k hk, integral_exp_mul_complex hc]
      field_simp
  · intro hk0
    apply integral_e_nonzero exp hexp x1 x2 k
    rintro ⟨h1, h2⟩
    apply hk0
    cases k
    simp only [complex_t.mk.injEq]
    exact ⟨h1, h2⟩
  · rw [integral_e_nonzero exp hexp 0 1 ⟨0, 1⟩ (by simp), toComplex_I]
    simp
  · rw [Complex.I_mul_I, Complex.exp_zero]
    push_cast
    ring
  · rw [intervalIntegral.integral_comp_neg (fun x => Real.exp x), integral_exp]
    simp

/-- Witness for C9: the complex exponential itself, at `x1 = 0`, `x2 = 1`, `k = i`. -/
theorem integral_e_correct_witness :
    toComplex (integral_e (fun z => ⟨(Complex.exp (toComplex z)).re,
        (Complex.exp (toComplex z)).im⟩) 0 1 ⟨0, 1⟩)
      = ∫ x in (0 : ℝ)..1, Complex.exp (Complex.I * toComplex ⟨0, 1⟩ * x) :=
  (integral_e_correct (fun z => ⟨(Complex.exp (toComplex z)).re,
      (Complex.exp (toComplex z)).im⟩) (fun _ => rfl) 0 1 ⟨0, 1⟩).1

/-- Value of `integral_xe` on its general branch, as a complex number. -/
theorem integral_xe_nonzero (exp : complex_t ℝ → complex_t ℝ)
    (hexp : ∀ z, toComplex (exp z) = Complex.exp (toComplex z)) (x1 x2 a b : ℝ)
    (k : complex_t ℝ) (hk : ¬ (k.re = 0 ∧ k.im = 0)) :
    toComplex (integral_xe exp x1 x2 a b k)
      = (1 / (Complex.I * toComplex k))
        * ((((a * x2 + b : ℝ) : ℂ) - (a : ℂ) / (Complex.I * toComplex k))
            * Complex.exp (Complex.I * toComplex k * x2)
          - (((a * x1 + b : ℝ) : ℂ) - (a : ℂ) / (Complex.I * toComplex k))
            * Complex.exp (Complex.I * toComplex k * x1)) := by
  simp only [integral_xe, if_neg hk, toComplex_mul, toComplex_sub, hexp, toComplex_mul_real,
    toComplex_real_div, toComplex_real_sub, toComplex_I, Complex.ofReal_one]

/-- An antiderivative of `(a x + b) e^{cx}` for `c ≠ 0`. -/
theorem hasDerivAt_linear_mul_cexp (a b : ℝ) (c : ℂ) (hc : c ≠ 0) (x : ℝ) :
    HasDerivAt (fun y : ℝ => (1 / c) * ((((a * y + b : ℝ) : ℂ) - (a : ℂ) / c)
        * Complex.exp (c * y)))
      (((a * x + b : ℝ) : ℂ) * Complex.exp (c * x)) x := by
  have hlin : HasDerivAt (fun z : ℂ => (a : ℂ) * z + (b : ℂ) - (a : ℂ) / c)
      ((a : ℂ) * 1) (x : ℂ) :=
    (((hasDerivAt_id (x : ℂ)).const_mul (a : ℂ)).add_const (b : ℂ)).sub_const _
  have hexp : HasDerivAt (fun z : ℂ => Complex.exp (c * z))
      (Complex.exp (c * (x : ℂ)) * (c * 1)) (x : ℂ) :=
    ((hasDerivAt_id (x : ℂ)).const_mul c).cexp
  have hprod := ((hlin.mul hexp).const_mul (1 / c)).comp_ofReal
  have hfun : (fun y : ℝ => (1 / c) * ((((a * y + b : ℝ) : ℂ) - (a : ℂ) / c)
        * Complex.exp (c * y)))
      = fun y : ℝ => (1 / c) * (((a : ℂ) * (y : ℂ) + (b : ℂ) - (a : ℂ) / c)
        * Complex.exp (c * (y : ℂ))) := by
    funext y
    push_cast
    ring
  rw [hfun]
  convert hprod using 1
  push_cast
  field_simp
  ring

/-- C10: with `exp` the complex exponential, `integral_xe(x1, x2, a, b, k)` is the
integral of `(a x + b) e^{ikx}` over `[x1, x2]` for all reals `x1`, `x2`, `a`, `b` and
every complex `k`; when `k` is zero it returns `(a (x2² - x1²)/2 + b (x2 - x1), 0)` and
otherwise `(1/(ik)) [(a x2 + b - a/(ik)) e^{ik x2} - (a x1 + b - a/(ik)) e^{ik x1}]`. -/
theorem integral_xe_correct (exp : complex_t ℝ → complex_t ℝ)
    (hexp : ∀ z, toComplex (exp z) = Complex.exp (toComplex z)) (x1 x2 a b : ℝ)
    (k : complex_t ℝ) :
    toComplex (integral_xe exp x1 x2 a b k)
        = ∫ x in x1..x2, ((a * x + b : ℝ) : ℂ) * Complex.exp (Complex.I * toComplex k * x)
    ∧ (k = ⟨0, 0⟩ → integral_xe exp x1 x2 a b k
        = ⟨a * (x2 ^ 2 - x1 ^ 2) / 2 + b * (x2 - x1), 0⟩)
    ∧ (k ≠ ⟨0, 0⟩ → toComplex (integral_xe exp x1 x2 a b k)
        = (1 / (Complex.I * toComplex k))
          * ((((a * x2 + b : ℝ) : ℂ) - (a : ℂ) / (Complex.I * toComplex k))
              * Complex.exp (Complex.I * toComplex k * x2)
            - (((a * x1 + b : ℝ) : ℂ) - (a : ℂ) / (Complex.I * toComplex k))
              * Complex.exp (Complex.I * toComplex k * x1))) := by
  refine ⟨?_, ?_, ?_⟩
  · by_cases hk : k.re = 0 ∧ k.im = 0
    · have hK : toComplex k = 0 := (toComplex_eq_zero k).2 hk
      simp only [integral_xe, if_pos hk, hK, mul_zero, zero_mul, Complex.exp_zero, mul_one]
      rw [intervalIntegral.integral_ofReal]
      have hreal : (∫ x in x1..x2, a * x + b)
          = a * (x2 * x2 - x1 * x1) / 2 + b * (x2 - x1) := by
        rw [intervalIntegral.integral_add
            (Continuous.intervalIntegrable (by fun_prop) _ _)
            (Continuous.intervalIntegrable (by fun_prop) _ _),
          intervalIntegral.integral_const_mul, integral_id, intervalIntegral.integral_const]
        simp only [smul_eq_mul]
        ring
      rw [hreal]
      apply Complex.ext <;> simp [toComplex]
    · have hK : toComplex k ≠ 0 := fun h => hk ((toComplex_eq_zero k).1 h)
      have hc : Complex.I * toComplex k ≠ 0 := mul_ne_zero Complex.I_ne_zero hK
      rw [integral_xe_nonzero exp hexp x1 x2 a b k hk,
        intervalIntegral.integral_eq_sub_of_hasDerivAt
          (fun x _ => hasDerivAt_linear_mul_cexp a b (Complex.I * toComplex k) hc x)
          (Continuous.intervalIntegrable (by fun_prop) _ _)]
      ring
  · intro hk0
    subst hk0
    simp only [integral_xe, and_self, if_true]
    congr 1
    ring
  · intro hk0
    apply integral_xe_nonzero exp hexp x1 x2 a b k
    rintro ⟨h1, h2⟩
    apply hk0
    cases k
    simp only [complex_t.mk.injEq]
    exact ⟨h1, h2⟩

/-- Witness for C10: the complex exponential itself, at `x1 = 0`, `x2 = 1`, `a = 2`,
`b = 3`, `k = i`. -/
theorem integral_xe_correct_witness :
    toComplex (integral_xe (fun z => ⟨(Complex.exp (toComplex z)).re,
        (Complex.exp (toComplex z)).im⟩) 0 1 2 3 ⟨0, 1⟩)
      = ∫ x in (0 : ℝ)..1,
          ((2 * x + 3 : ℝ) : ℂ) * Complex.exp (Complex.I * toComplex ⟨0, 1⟩ * x) :=
  (integral_xe_correct (fun z => ⟨(Complex.exp (toComplex z)).re,
      (Complex.exp (toComplex z)).im⟩) (fun _ => rfl) 0 1 2 3 ⟨0, 1⟩).1

/-- C11: for all reals `x1`, `x2`, `integral_e(x1, x2, k)` with both parts of `k` exactly
zero returns exactly `(x2 - x1, 0)`; the degenerate branch is taken if and only if both
parts of `k` are zero, any other `k` getting the value of the general branch. -/
theorem integral_e_degenerate {α : Type} [Field α] [DecidableEq α]
    (exp : complex_t α → complex_t α) (x1 x2 : α) :
    integral_e exp x1 x2 ⟨0, 0⟩ = ⟨x2 - x1, 0⟩
    ∧ ∀ k : complex_t α,
        integral_e exp x1 x2 k
          = if k.re = 0 ∧ k.im = 0 then ⟨x2 - x1, 0⟩
            else std_real_div 1 ((⟨0, 1⟩ : complex_t α) * k)
              * (exp (operator_mul_real ((⟨0, 1⟩ : complex_t α) * k) x2)
                - exp (operator_mul_real ((⟨0, 1⟩ : complex_t α) * k) x1)) := by
  constructor
  · simp [integral_e]
  · intro k
    rfl

end integral_proofs

/-! ## 3-vectors and 3 x 3 matrices -/

section vector3_proofs

variable {α : Type}

/-- The three loops of `mat_mul_3x3` unrolled: every output component is the sum,
accumulated from `0.0` in the order of `k`, of the three products of the source. -/
theorem mat_mul_3x3_eq [Zero α] [Add α] [Mul α] (a b c d e f x y z : vector3_t α) :
    mat_mul_3x3 a b c d e f x y z
      = (true,
         ⟨0 + a.vec0 * d.vec0 + a.vec1 * e.vec0 + a.vec2 * f.vec0,
          0 + a.vec0 * d.vec1 + a.vec1 * e.vec1 + a.vec2 * f.vec1,
          0 + a.vec0 * d.vec2 + a.vec1 * e.vec2 + a.vec2 * f.vec2⟩,
         ⟨0 + b.vec0 * d.vec0 + b.vec1 * e.vec0 + b.vec2 * f.vec0,
          0 + b.vec0 * d.vec1 + b.vec1 * e.vec1 + b.vec2 * f.vec1,
          0 + b.vec0 * d.vec2 + b.vec1 * e.vec2 + b.vec2 * f.vec2⟩,
         ⟨0 + c.vec0 * d.vec0 + c.vec1 * e.vec0 + c.vec2 * f.vec0,
          0 + c.vec0 * d.vec1 + c.vec1 * e.vec1 + c.vec2 * f.vec1,
          0 + c.vec0 * d.vec2 + c.vec1 * e.vec2 + c.vec2 * f.vec2⟩) := by
  rfl

/-- C13: the identity rows `((1,0,0),(0,1,0),(0,0,1))` are neutral for `mat_mul_3x3`, in
exact arithmetic: with the identity on the right and with the identity on the left of
the rows `(a, b, c)` the call returns `true` and writes the rows `(a, b, c)`. -/
theorem mat_mul_3x3_identity [Semiring α] (a b c x y z : vector3_t α) :
    mat_mul_3x3 a b c ⟨1, 0, 0⟩ ⟨0, 1, 0⟩ ⟨0, 0, 1⟩ x y z = (true, a, b, c)
    ∧ mat_mul_3x3 ⟨1, 0, 0⟩ ⟨0, 1, 0⟩ ⟨0, 0, 1⟩ a b c x y z = (true, a, b, c) := by
  rw [mat_mul_3x3_eq, mat_mul_3x3_eq]
  constructor <;> simp

/-- C14: `mat_mul_3x3` returns `true` and writes the standard matrix product, entry
`(i, j)` of the output rows being the sum over `k` of `A[i][k] * B[k][j]`, and in exact
arithmetic it is associative: `(A B) C` and `A (B C)` give the same three rows. -/
theorem mat_mul_3x3_product_assoc [CommSemiring α]
    (a b c d e f g h l x y z x1 y1 z1 x2 y2 z2 x3 y3 z3 : vector3_t α) :
    (mat_mul_3x3 a b c d e f x y z).1 = true
    ∧ (∀ i j : Fin 3,
        (rows (mat_mul_3x3 a b c d e f x y z).2.1 (mat_mul_3x3 a b c d e f x y z).2.2.1
            (mat_mul_3x3 a b c d e f x y z).2.2.2 i).get j
          = ∑ k : Fin 3, (rows a b c i).get k * (rows d e f k).get j)
    ∧ (mat_mul_3x3 (mat_mul_3x3 a b c d e f x y z).2.1
          (mat_mul_3x3 a b c d e f x y z).2.2.1 (mat_mul_3x3 a b c d e f x y z).2.2.2
          g h l x1 y1 z1).2
        = (mat_mul_3x3 a b c (mat_mul_3x3 d e f g h l x2 y2 z2).2.1
          (mat_mul_3x3 d e f g h l x2 y2 z2).2.2.1
          (mat_mul_3x3 d e f g h l x2 y2 z2).2.2.2 x3 y3 z3).2 := by
  refine ⟨?_, ?_, ?_⟩
  · rw [mat_mul_3x3_eq]
  · intro i j
    rw [mat_mul_3x3_eq]
    fin_cases i <;> fin_cases j <;>
      simp [rows, vector3_t.get, Fin.sum_univ_three]
  · simp only [mat_mul_3x3_eq, Prod.mk.injEq, vector3_t.mk.injEq]
    refine ⟨⟨?_, ?_, ?_⟩, ⟨?_, ?_, ?_⟩, ⟨?_, ?_, ?_⟩⟩ <;> ring

/-- C15: `min` and `max` on 3-vectors work component by component: `min(a,b)[i]` is the
smaller and `max(a,b)[i]` the larger of `a[i]` and `b[i]`, each is one of `a[i]`,
`b[i]`, and `min(a,b)[i] ≤ max(a,b)[i]` for `i` in `0..2`. -/
theorem min_max_componentwise [LinearOrder α] (a b : vector3_t α) (i : Fin 3) :
    ((min a b).get i ≤ a.get i ∧ (min a b).get i ≤ b.get i
      ∧ ((min a b).get i = a.get i ∨ (min a b).get i = b.get i))
    ∧ (a.get i ≤ (max a b).get i ∧ b.get i ≤ (max a b).get i
      ∧ ((max a b).get i = a.get i ∨ (max a b).get i = b.get i))
    ∧ (min a b).get i ≤ (max a b).get i := by
  have key : ∀ p q : α,
      ((if p < q then p else q) ≤ p ∧ (if p < q then p else q) ≤ q
        ∧ ((if p < q then p else q) = p ∨ (if p < q then p else q) = q))
      ∧ (p ≤ (if p > q then p else q) ∧ q ≤ (if p > q then p else q)
        ∧ ((if p > q then p else q) = p ∨ (if p > q then p else q) = q))
      ∧ (if p < q then p else q) ≤ (if p > q then p else q) := by
    intro p q
    rcases lt_trichotomy p q with h | h | h
    · simp [h, le_of_lt h, not_lt_of_gt h]
    · simp [h]
    · simp [h, le_of_lt h, not_lt_of_gt h]
  fin_cases i
  · exact key a.vec0 b.vec0
  · exact key a.vec1 b.vec1
  · exact key a.vec2 b.vec2

/-- The comparison is the lexicographic order on (real part, imaginary part). -/
theorem operator_lt_iff [LinearOrder α] (a b : complex_t α) :
    operator_lt a b = true ↔ (a.re < b.re ∨ (a.re = b.re ∧ a.im < b.im)) := by
  unfold operator_lt
  by_cases h1 : a.re < b.re
  · simp [h1]
  · by_cases h2 : a.re = b.re ∧ a.im < b.im
    · simp [h1, h2]
    · simp [h1, h2]

/-- Two complex numbers neither of which is below the other are equal. -/
theorem operator_lt_incomparable [LinearOrder α] (a b : complex_t α)
    (h1 : operator_lt a b = false) (h2 : operator_lt b a = false) : a = b := by
  have n1 : ¬ (a.re < b.re ∨ (a.re = b.re ∧ a.im < b.im)) := by
    rw [← operator_lt_iff, h1]; simp
  have n2 : ¬ (b.re < a.re ∨ (b.re = a.re ∧ b.im < a.im)) := by
    rw [← operator_lt_iff, h2]; simp
  rw [not_or] at n1 n2
  have hre : a.re = b.re := le_antisymm (not_lt.mp n2.1) (not_lt.mp n1.1)
  have him : a.im = b.im :=
    le_antisymm (not_lt.mp (fun h => n2.2 ⟨hre.symm, h⟩)) (not_lt.mp (fun h => n1.2 ⟨hre, h⟩))
  cases a
  cases b
  simp only [complex_t.mk.injEq]
  exact ⟨hre, him⟩

/-- C12: `operator<` on complex numbers holds exactly when `re(a) < re(b)`, or
`re(a) = re(b)` and `im(a) < im(b)`; on exact reals it is a strict weak ordering:
irreflexive, transitive, and with transitive incomparability. -/
theorem operator_lt_strict_weak_order [LinearOrder α] :
    (∀ a b : complex_t α,
        operator_lt a b = true ↔ (a.re < b.re ∨ (a.re = b.re ∧ a.im < b.im)))
    ∧ (∀ a : complex_t α, operator_lt a a = false)
    ∧ (∀ a b c : complex_t α, operator_lt a b = true → operator_lt b c = true →
        operator_lt a c = true)
    ∧ (∀ a b c : complex_t α,
        operator_lt a b = false ∧ operator_lt b a = false →
        operator_lt b c = false ∧ operator_lt c b = false →
        operator_lt a c = false ∧ operator_lt c a = false) := by
  have hirr : ∀ a : complex_t α, operator_lt a a = false := by
    intro a
    rw [← Bool.not_eq_true, operator_lt_iff]
    simp
  refine ⟨operator_lt_iff, hirr, ?_, ?_⟩
  · intro a b c hab hbc
    rw [operator_lt_iff] at hab hbc ⊢
    rcases hab with h1 | ⟨h1, h2⟩
    · rcases hbc with h3 | ⟨h3, _⟩
      · exact Or.inl (lt_trans h1 h3)
      · exact Or.inl (h3 ▸ h1)
    · rcases hbc with h3 | ⟨h3, h4⟩
      · exact Or.inl (h1 ▸ h3)
      · exact Or.inr ⟨h1.trans h3, lt_trans h2 h4⟩
  · rintro a b c ⟨h1, h2⟩ ⟨h3, h4⟩
    have hab := operator_lt_incomparable a b h1 h2
    have hbc := operator_lt_incomparable b c h3 h4
    subst hab
    subst hbc
    exact ⟨hirr a, hirr a⟩

/-- Witness for C12: transitivity at `1 + 2i < 1 + 3i < 2`. -/
theorem operator_lt_strict_weak_order_witness :
    operator_lt (⟨1, 2⟩ : complex_t ℚ) ⟨2, 0⟩ = true :=
  operator_lt_strict_weak_order.2.2.1 ⟨1, 2⟩ ⟨1, 3⟩ ⟨2, 0⟩ (by decide) (by decide)

end vector3_proofs

/-! ## Shape test, in-place variants and the exponential -/

section variants

variable {α : Type}

theorem push_back_each_eq {β : Type} (f : β → β) (m result : List β) :
    push_back_each f m result = result ++ m.map f := by
  induction m generalizing result with
  | nil => simp [push_back_each]
  | cons a i ih => simp [push_back_each, ih]

theorem assign_each_eq {β : Type} (f : β → β) (m : List β) :
    assign_each f m = m.map f := by
  induction m with
  | nil => rfl
  | cons a i ih => simp [assign_each, ih]

/-- The shape test fails exactly on equal triples and equal lengths. -/
theorem shape_test_iff (x1 y1 z1 n1 x2 y2 z2 n2 : Nat) :
    (x1 != x2 || y1 != y2 || z1 != z2 || n1 != n2) = false
      ↔ (x1 = x2 ∧ y1 = y2 ∧ z1 = z2 ∧ n1 = n2) := by
  simp [and_assoc]

theorem mat_add_success_iff [Add α] (x1 y1 z1 x2 y2 z2 : Nat)
    (m1 m2 result : List (complex_t α)) :
    (mat_add x1 y1 z1 m1 x2 y2 z2 m2 result).1 = true
      ↔ (x1 = x2 ∧ y1 = y2 ∧ z1 = z2 ∧ m1.length = m2.length) := by
  rw [← shape_test_iff]
  unfold mat_add
  cases (x1 != x2 || y1 != y2 || z1 != z2 || m1.length != m2.length) <;> simp

theorem mat_dot_prod_success_iff [Add α] [Sub α] [Mul α] (x1 y1 z1 x2 y2 z2 : Nat)
    (m1 m2 result : List (complex_t α)) :
    (mat_dot_prod x1 y1 z1 m1 x2 y2 z2 m2 result).1 = true
      ↔ (x1 = x2 ∧ y1 = y2 ∧ z1 = z2 ∧ m1.length = m2.length) := by
  rw [← shape_test_iff]
  unfold mat_dot_prod
  cases (x1 != x2 || y1 != y2 || z1 != z2 || m1.length != m2.length) <;> simp

theorem mat_dot_div_success_iff [Add α] [Sub α] [Mul α] [Div α] (x1 y1 z1 x2 y2 z2 : Nat)
    (m1 m2 result : List (complex_t α)) :
    (mat_dot_div x1 y1 z1 m1 x2 y2 z2 m2 result).1 = true
      ↔ (x1 = x2 ∧ y1 = y2 ∧ z1 = z2 ∧ m1.length = m2.length) := by
  rw [← shape_test_iff]
  unfold mat_dot_div
  cases (x1 != x2 || y1 != y2 || z1 != z2 || m1.length != m2.length) <;> simp

theorem mat_add_in_eq [Add α] (x y z : Nat) (a b : List (complex_t α))
    (hlen : a.length = b.length) :
    mat_add_in x y z a x y z b = (true, List.zipWith (fun p q => p + q) a b, b) := by
  simp only [mat_add_in, shape_test_pass x y z _ _ hlen, assign_loop_eq _ a b hlen]
  rfl

theorem mat_dot_prod_in_eq [Add α] [Sub α] [Mul α] (x y z : Nat) (a b : List (complex_t α))
    (hlen : a.length = b.length) :
    mat_dot_prod_in x y z a x y z b
      = (true, List.zipWith (fun p q => p * q) a b, b) := by
  simp only [mat_dot_prod_in, shape_test_pass x y z _ _ hlen, assign_loop_eq _ a b hlen]
  rfl

theorem mat_dot_div_in_eq [Add α] [Sub α] [Mul α] [Div α] (x y z : Nat)
    (a b : List (complex_t α)) (hlen : a.length = b.length) :
    mat_dot_div_in x y z a x y z b
      = (true, List.zipWith (fun p q => p / q) a b, b) := by
  simp only [mat_dot_div_in, shape_test_pass x y z _ _ hlen, assign_loop_eq _ a b hlen]
  rfl

/-- C18: the shape check of `mat_add`, `mat_dot_prod`, `mat_dot_div` and their in-place
variants accepts exactly when the two triples are equal component by component and the
two sequences have equal length; it never relates the dimensions to the data, so that
with the triples `(2,2,2)` and two sequences of length 3 every one of them succeeds. -/
theorem shape_check_exact [Add α] [Sub α] [Mul α] [Div α] (x1 y1 z1 x2 y2 z2 : Nat)
    (m1 m2 result : List (complex_t α)) (p q r s t u : complex_t α) :
    (((mat_add x1 y1 z1 m1 x2 y2 z2 m2 result).1 = true
        ↔ (x1 = x2 ∧ y1 = y2 ∧ z1 = z2 ∧ m1.length = m2.length))
      ∧ ((mat_dot_prod x1 y1 z1 m1 x2 y2 z2 m2 result).1 = true
        ↔ (x1 = x2 ∧ y1 = y2 ∧ z1 = z2 ∧ m1.length = m2.length))
      ∧ ((mat_dot_div x1 y1 z1 m1 x2 y2 z2 m2 result).1 = true
        ↔ (x1 = x2 ∧ y1 = y2 ∧ z1 = z2 ∧ m1.length = m2.length))
      ∧ ((mat_add_in x1 y1 z1 m1 x2 y2 z2 m2).1 = true
        ↔ (x1 = x2 ∧ y1 = y2 ∧ z1 = z2 ∧ m1.length = m2.length))
      ∧ ((mat_dot_prod_in x1 y1 z1 m1 x2 y2 z2 m2).1 = true
        ↔ (x1 = x2 ∧ y1 = y2 ∧ z1 = z2 ∧ m1.length = m2.length))
      ∧ ((mat_dot_div_in x1 y1 z1 m1 x2 y2 z2 m2).1 = true
        ↔ (x1 = x2 ∧ y1 = y2 ∧ z1 = z2 ∧ m1.length = m2.length)))
    ∧ ([p, q, r].length ≠ 2 * 2 * 2
      ∧ (mat_add 2 2 2 [p, q, r] 2 2 2 [s, t, u] result).1 = true
      ∧ (mat_dot_prod 2 2 2 [p, q, r] 2 2 2 [s, t, u] result).1 = true
      ∧ (mat_dot_div 2 2 2 [p, q, r] 2 2 2 [s, t, u] result).1 = true
      ∧ (mat_add_in 2 2 2 [p, q, r] 2 2 2 [s, t, u]).1 = true
      ∧ (mat_dot_prod_in 2 2 2 [p, q, r] 2 2 2 [s, t, u]).1 = true
      ∧ (mat_dot_div_in 2 2 2 [p, q, r] 2 2 2 [s, t, u]).1 = true) := by
  refine ⟨⟨mat_add_success_iff _ _ _ _ _ _ _ _ _, mat_dot_prod_success_iff _ _ _ _ _ _ _ _ _,
    mat_dot_div_success_iff _ _ _ _ _ _ _ _ _, ?_, ?_, ?_⟩,
    by simp, ?_, ?_, ?_, ?_, ?_, ?_⟩
  · rw [← shape_test_iff]
    unfold mat_add_in
    cases (x1 != x2 || y1 != y2 || z1 != z2 || m1.length != m2.length) <;> simp
  · rw [← shape_test_iff]
    unfold mat_dot_prod_in
    cases (x1 != x2 || y1 != y2 || z1 != z2 || m1.length != m2.length) <;> simp
  · rw [← shape_test_iff]
    unfold mat_dot_div_in
    cases (x1 != x2 || y1 != y2 || z1 != z2 || m1.length != m2.length) <;> simp
  · rw [mat_add_eq 2 2 2 [p, q, r] [s, t, u] result rfl]
  · rw [mat_dot_prod_eq 2 2 2 [p, q, r] [s, t, u] result rfl]
  · rw [mat_dot_div_eq 2 2 2 [p, q, r] [s, t, u] result rfl]
  · rw [mat_add_in_eq 2 2 2 [p, q, r] [s, t, u] rfl]
  · rw [mat_dot_prod_in_eq 2 2 2 [p, q, r] [s, t, u] rfl]
  · rw [mat_dot_div_in_eq 2 2 2 [p, q, r] [s, t, u] rfl]

/-- C17: in-place and out-of-place variants agree.  Whenever the out-of-place operation
succeeds, the in-place one (`mat_add_in`, `mat_dot_prod_in`, `mat_dot_div_in`,
`mat_mul_in` with a real or complex scalar in either argument order, `mat_sqr_in`)
succeeds too, leaves in the first operand the sequence the out-of-place operation
writes to `result`, and leaves the second operand unchanged. -/
theorem in_place_agrees_with_out_of_place [Add α] [Sub α] [Mul α] [Div α]
    (x1 y1 z1 x2 y2 z2 : Nat) (m1 m2 result : List (complex_t α)) (sr : α)
    (sc : complex_t α) :
    ((mat_add x1 y1 z1 m1 x2 y2 z2 m2 result).1 = true →
        mat_add_in x1 y1 z1 m1 x2 y2 z2 m2
          = (true, (mat_add x1 y1 z1 m1 x2 y2 z2 m2 result).2, m2))
    ∧ ((mat_dot_prod x1 y1 z1 m1 x2 y2 z2 m2 result).1 = true →
        mat_dot_prod_in x1 y1 z1 m1 x2 y2 z2 m2
          = (true, (mat_dot_prod x1 y1 z1 m1 x2 y2 z2 m2 result).2, m2))
    ∧ ((mat_dot_div x1 y1 z1 m1 x2 y2 z2 m2 result).1 = true →
        mat_dot_div_in x1 y1 z1 m1 x2 y2 z2 m2
          = (true, (mat_dot_div x1 y1 z1 m1 x2 y2 z2 m2 result).2, m2))
    ∧ ((mat_mul_real sr m1 result).1 = true →
        mat_mul_in_real sr m1 = (true, (mat_mul_real sr m1 result).2))
    ∧ ((mat_mul_complex sc m1 result).1 = true →
        mat_mul_in_complex sc m1 = (true, (mat_mul_complex sc m1 result).2))
    ∧ ((mat_mul_matrix_real m1 sr result).1 = true →
        mat_mul_in_matrix_real m1 sr = (true, (mat_mul_matrix_real m1 sr result).2))
    ∧ ((mat_mul_matrix_complex m1 sc result).1 = true →
        mat_mul_in_matrix_complex m1 sc = (true, (mat_mul_matrix_complex m1 sc result).2))
    ∧ ((mat_sqr m1 result).1 = true →
        mat_sqr_in m1 = (true, (mat_sqr m1 result).2)) := by
  refine ⟨?_, ?_, ?_, ?_, ?_, ?_, ?_, ?_⟩
  · intro h
    obtain ⟨rfl, rfl, rfl, hlen⟩ := (mat_add_success_iff _ _ _ _ _ _ _ _ _).1 h
    rw [mat_add_eq _ _ _ _ _ _ hlen, mat_add_in_eq _ _ _ _ _ hlen]
  · intro h
    obtain ⟨rfl, rfl, rfl, hlen⟩ := (mat_dot_prod_success_iff _ _ _ _ _ _ _ _ _).1 h
    rw [mat_dot_prod_eq _ _ _ _ _ _ hlen, mat_dot_prod_in_eq _ _ _ _ _ hlen]
  · intro h
    obtain ⟨rfl, rfl, rfl, hlen⟩ := (mat_dot_div_success_iff _ _ _ _ _ _ _ _ _).1 h
    rw [mat_dot_div_eq _ _ _ _ _ _ hlen, mat_dot_div_in_eq _ _ _ _ _ hlen]
  · intro _
    simp [mat_mul_in_real, mat_mul_real, push_back_each_eq, assign_each_eq]
  · intro _
    simp [mat_mul_in_complex, mat_mul_complex, push_back_each_eq, assign_each_eq]
  · intro _
    simp [mat_mul_in_matrix_real, mat_mul_matrix_real, mat_mul_in_real, mat_mul_real,
      push_back_each_eq, assign_each_eq]
  · intro _
    simp [mat_mul_in_matrix_complex, mat_mul_matrix_complex, mat_mul_in_complex,
      mat_mul_complex, push_back_each_eq, assign_each_eq]
  · intro _
    simp [mat_sqr_in, mat_sqr, push_back_each_eq, assign_each_eq]

/-- Witness for C17: `mat_add` and `mat_add_in` on two sequences of length 2. -/
theorem in_place_agrees_with_out_of_place_witness :
    mat_add_in 2 1 1 [(⟨1, 2⟩ : complex_t ℚ), ⟨0, 1⟩] 2 1 1 [⟨3, 4⟩, ⟨2, 0⟩]
      = (true,
         (mat_add 2 1 1 [(⟨1, 2⟩ : complex_t ℚ), ⟨0, 1⟩] 2 1 1 [⟨3, 4⟩, ⟨2, 0⟩] []).2,
         [⟨3, 4⟩, ⟨2, 0⟩]) :=
  (in_place_agrees_with_out_of_place 2 1 1 2 1 1 [(⟨1, 2⟩ : complex_t ℚ), ⟨0, 1⟩]
    [⟨3, 4⟩, ⟨2, 0⟩] [] 0 ⟨0, 0⟩).1 (by decide)

/-- C16 on the code: `mat_exp` and `mat_exp_in` compute `exp` of every element, into
`result` and in place, but neither executes a `return` statement, so the source leaves
the `bool` they hand back undetermined instead of returning success. -/
theorem mat_exp_no_return (exp : complex_t α → complex_t α)
    (matrix result : List (complex_t α)) :
    (mat_exp exp matrix result).1 = none
    ∧ (mat_exp exp matrix result).2 = matrix.map exp
    ∧ (mat_exp_in exp matrix).1 = none
    ∧ (mat_exp_in exp matrix).2 = matrix.map exp := by
  simp [mat_exp, mat_exp_in, push_back_each_eq, assign_each_eq]

end variants

/-! ## Transposing twice; matrix-vector products -/

section involution

variable {α : Type}

/-- A buffer all of whose cells have been written is the image of a list of values. -/
theorem written_cells_eq_map (l : List (Option α))
    (h : ∀ j, j < l.length → ∃ v, l[j]? = some (some v)) :
    ∃ T : List α, l = T.map some := by
  induction l with
  | nil => exact ⟨[], rfl⟩
  | cons c l ih =>
    obtain ⟨v, hv⟩ := h 0 (by simp)
    obtain ⟨T, hT⟩ := ih (fun j hj => by
      obtain ⟨w, hw⟩ := h (j + 1) (by simpa using hj)
      exact ⟨w, by simpa using hw⟩)
    refine ⟨v :: T, ?_⟩
    simp only [List.getElem?_cons_zero, Option.some.injEq] at hv
    rw [hv, hT]
    rfl

/-- The cell index `y_size * x + y` determines the column `x` and the row `y`. -/
theorem transpose_index_inj (y_size x y x' y' : Nat) (hy : y < y_size) (hy' : y' < y_size)
    (h : y_size * x + y = y_size * x' + y') : x = x' ∧ y = y' := by
  have hpos : 0 < y_size := by omega
  have h1 : (y_size * x + y) / y_size = x := by
    rw [Nat.mul_add_div hpos, Nat.div_eq_of_lt hy, Nat.add_zero]
  have h2 : (y_size * x' + y') / y_size = x' := by
    rw [Nat.mul_add_div hpos, Nat.div_eq_of_lt hy', Nat.add_zero]
  have h3 : (y_size * x + y) % y_size = y := by
    rw [Nat.mul_add_mod, Nat.mod_eq_of_lt hy]
  have h4 : (y_size * x' + y') % y_size = y' := by
    rw [Nat.mul_add_mod, Nat.mod_eq_of_lt hy']
  rw [h] at h1 h3
  exact ⟨h1.symm.trans h2, h3.symm.trans h4⟩

/-- C19: transposing twice is the identity.  For `x_size * y_size` not overflowing an
`unsigned int` and a buffer `M` of `x_size * y_size` reals, `transpose(x_size, y_size, M)`
succeeds with an output `T` and `transpose(y_size, x_size, T)` succeeds with an output
equal to `M` at every index; and the index map `(x, y) ↦ y_size * x + y` is a bijection
from the `x_size * y_size` input cells onto the output cells. -/
theorem transpose_twice (x_size y_size : Nat) (M : List α)
    (t0 t1 : Option (List (Option α)))
    (hlen : M.length = x_size * y_size) (hov : x_size * y_size < 2 ^ 32) :
    (∃ T : List α,
        transpose x_size y_size (some M) t0 = some (true, some (T.map some))
        ∧ transpose y_size x_size (some T) t1 = some (true, some (M.map some)))
    ∧ (∀ x y, x < x_size → y < y_size → y_size * x + y < x_size * y_size)
    ∧ (∀ x y x' y', x < x_size → y < y_size → x' < x_size → y' < y_size →
        y_size * x + y = y_size * x' + y' → x = x' ∧ y = y')
    ∧ (∀ j, j < x_size * y_size → ∃ x y, x < x_size ∧ y < y_size ∧ y_size * x + y = j) := by
  refine ⟨?_, fun x y hx hy => transpose_index_bound x_size y_size x y hx hy,
    fun x y x' y' _ hy _ hy' h => transpose_index_inj y_size x y x' y' hy hy' h, ?_⟩
  · obtain ⟨out1, h1, hl1, hc1⟩ := transpose_cells x_size y_size M t0 hlen hov
    have hin : ∀ j, j < x_size * y_size → x_size * (j % y_size) + j / y_size < M.length := by
      intro j hj
      have hypos : 0 < y_size := by
        rcases Nat.eq_zero_or_pos y_size with h0 | h0
        · rw [h0] at hj; simp at hj
        · exact h0
      rw [hlen, Nat.mul_comm x_size y_size]
      apply transpose_index_bound y_size x_size _ _ (Nat.mod_lt j hypos)
      apply Nat.div_lt_of_lt_mul
      rwa [Nat.mul_comm]
    obtain ⟨T, hT⟩ := written_cells_eq_map out1 (fun j hj => by
      rw [hl1] at hj
      have hlt := hin j hj
      exact ⟨M[x_size * (j % y_size) + j / y_size],
        by rw [hc1 j hj, List.getElem?_eq_getElem hlt]⟩)
    have hTlen : T.length = y_size * x_size := by
      have := hl1
      rw [hT, List.length_map] at this
      rw [this, Nat.mul_comm]
    have hTcell : ∀ j, j < x_size * y_size →
        T[j]? = M[x_size * (j % y_size) + j / y_size]? := by
      intro j hj
      have := hc1 j hj
      rw [hT, List.getElem?_map, List.getElem?_eq_getElem (hin j hj)] at this
      rw [List.getElem?_eq_getElem (hin j hj)]
      cases hTj : T[j]? with
      | none => rw [hTj] at this; simp at this
      | some w =>
        rw [hTj] at this
        simp only [Option.map_some', Option.some.injEq] at this
        rw [this]
    have hov2 : y_size * x_size < uint_mod := by
      rw [Nat.mul_comm]; exact hov
    obtain ⟨out2, h2, hl2, hc2⟩ := transpose_cells y_size x_size T t1 hTlen hov2
    refine ⟨T, by rw [h1, hT], ?_⟩
    rw [h2]
    congr 3
    apply List.ext_getElem?
    intro j
    by_cases hj : j < y_size * x_size
    · have hxpos : 0 < x_size := by
        rcases Nat.eq_zero_or_pos x_size with h0 | h0
        · rw [h0] at hj; simp at hj
        · exact h0
      have hjy : j / x_size < y_size := by
        apply Nat.div_lt_of_lt_mul
        rwa [Nat.mul_comm]
      have hm : y_size * (j % x_size) + j / x_size < x_size * y_size :=
        transpose_index_bound x_size y_size _ _ (Nat.mod_lt j hxpos) hjy
      have hjM : j < M.length := by rw [hlen, Nat.mul_comm]; exact hj
      rw [hc2 j hj, hTcell _ hm, Nat.mul_add_mod, Nat.mod_eq_of_lt hjy,
        Nat.mul_add_div (lt_of_le_of_lt (Nat.zero_le _) hjy), Nat.div_eq_of_lt hjy,
        Nat.add_zero, Nat.div_add_mod,
        List.getElem?_map, List.getElem?_eq_getElem hjM]
      rfl
    · rw [List.getElem?_eq_none (by omega), List.getElem?_eq_none]
      rw [List.length_map, hlen, Nat.mul_comm]
      omega
  · intro j hj
    have hypos : 0 < y_size := by
      rcases Nat.eq_zero_or_pos y_size with h0 | h0
      · rw [h0] at hj; simp at hj
      · exact h0
    refine ⟨j / y_size, j % y_size, ?_, Nat.mod_lt j hypos, Nat.div_add_mod j y_size⟩
    apply Nat.div_lt_of_lt_mul
    rwa [Nat.mul_comm]

/-- Witness for C19: a 2 x 3 buffer. -/
theorem transpose_twice_witness :
    ∃ T : List ℚ,
      transpose 2 3 (some [(1 : ℚ), 2, 3, 4, 5, 6]) none = some (true, some (T.map some))
      ∧ transpose 3 2 (some T) none
          = some (true, some ([(1 : ℚ), 2, 3, 4, 5, 6].map some)) :=
  (transpose_twice 2 3 [(1 : ℚ), 2, 3, 4, 5, 6] none none rfl (by decide)).1

/-- C20: `mat_mul_3x1` returns `true` and writes `x[i] = row_i(A) · d`, and it is
compatible with `mat_mul_3x3` in exact arithmetic: applied to the rows that
`mat_mul_3x3(A, B)` produces and to `d` it gives the same vector as
`mat_mul_3x1(A, mat_mul_3x1(B, d))`, that is `(A B) d = A (B d)`. -/
theorem mat_mul_3x1_mat_mul_3x3 [CommSemiring α]
    (a b c d e f v x y z w0 w1 w2 w3 : vector3_t α) :
    (mat_mul_3x1 a b c v w0).1 = true
    ∧ (∀ i : Fin 3,
        (mat_mul_3x1 a b c v w0).2.get i = ∑ k : Fin 3, (rows a b c i).get k * v.get k)
    ∧ (mat_mul_3x1 (mat_mul_3x3 a b c d e f x y z).2.1
          (mat_mul_3x3 a b c d e f x y z).2.2.1 (mat_mul_3x3 a b c d e f x y z).2.2.2
          v w1).2
        = (mat_mul_3x1 a b c (mat_mul_3x1 d e f v w2).2 w3).2 := by
  refine ⟨rfl, ?_, ?_⟩
  · intro i
    fin_cases i <;> simp [mat_mul_3x1, rows, vector3_t.get, Fin.sum_univ_three]
  · simp only [mat_mul_3x3_eq, mat_mul_3x1, vector3_t.mk.injEq]
    refine ⟨?_, ?_, ?_⟩ <;> ring

end involution

end wil
